import Mathlib

/-!
# Verification of the vtexhelp-nav-cli Canonicalization & Synthesis Engine

A shallow embedding, in Lean 4, of the navigation-generation pipeline of the
`vtexdocs/vtexhelp-nav-cli` repository, together with theorems settling the
testable properties stated in the repository's specification.

The embedding follows these source files (current versions):
- `source/commands/generate/scanner.ts` (`ContentScanner.parseMarkdownFile`),
- `source/commands/generate/categorizer.ts` (`CategoryBuilder`:
  `extractCanonicalSlug`, `extractCanonicalSlugWithEnglishFallback`,
  `groupFilesByHierarchicalPath`),
- the cross-language linker (`CrossLanguageLinker.createCrossLanguageDocument`,
  `fillMissingLanguageFallbacks`),
- `source/commands/generate/transformer.ts` (`NavigationTransformer`:
  `buildCategoryNodes`, `buildNavigationNode`, `buildDocumentNodes`,
  `buildDocumentNode`, `getDocumentSlug`, `generateSlugFromFilename`,
  `slugify`, `mergeCategoryNodeLists`, `generateLocalizedCategorySlugs`,
  `sortDocumentNodes`, `sortCategoryNodes`, `addOrderNumbersToArticleNames`),
- `source/utils/categoryNormalization.ts` (`normalizeCategoryName`),
- `source/config/acronyms` (`VTEX_ACRONYMS`, `getAcronymCase`).

Modelling conventions:
- JavaScript strings that may be `undefined` are modelled as `String` with
  `""` for the absent value; the source only ever tests these fields for
  truthiness, and both `undefined` and `""` are falsy, so this is faithful.
- The mutable `Set`/`Map` objects threaded through the transformer are
  modelled by explicit state passing (`GenState`) and insertion-ordered
  association lists, matching the insertion-order semantics of JS `Map`.
- Logger calls are I/O; diagnostics that the claims talk about are modelled
  as structured `Diag` values returned alongside results.
- `String.toLower`/`toUpper` model `toLowerCase`/`toUpperCase` on the ASCII
  range used by slugs and section names, and lexicographic `compare` on
  lowercased strings models `localeCompare` on the ASCII inputs appearing in
  the concrete theorems below.
-/

/-- The three supported languages (`Language` in `types/navigation.ts`). -/
inductive Lang where
  | en
  | es
  | pt
deriving DecidableEq, Repr

/-- The language code string used when a `Lang` is interpolated into keys. -/
def Lang.code : Lang → String
  | .en => "en"
  | .es => "es"
  | .pt => "pt"

/-- `LocalizedString` from `types/navigation.ts`: one value per language.
`""` denotes "no translation" (distinct from a present value). -/
structure LocalizedString where
  en : String
  es : String
  pt : String
deriving DecidableEq, Repr

/-- Read the slot of a given language. -/
def LocalizedString.get (s : LocalizedString) : Lang → String
  | .en => s.en
  | .es => s.es
  | .pt => s.pt

/-- Functionally update the slot of a given language. -/
def LocalizedString.set (s : LocalizedString) : Lang → String → LocalizedString
  | .en, v => { s with en := v }
  | .es, v => { s with es := v }
  | .pt, v => { s with pt := v }

/-- The all-empty localized string (`{ en: '', es: '', pt: '' }`). -/
def LocalizedString.empty : LocalizedString := ⟨"", "", ""⟩

/-- Frontmatter fields of a content file (`FrontMatter` in `generate/types.ts`).
Optional string fields use `""` for "absent". -/
structure FrontMatter where
  title : String
  slugEN : String
  legacySlug : String
  status : String
  trackSlugEN : String
  locale : String
  order : Option Int
deriving DecidableEq, Repr

/-- `ContentFile` from `generate/types.ts`: one parsed markdown file.
`relativePath` is the path relative to the section directory, kept as its
list of `/`-separated segments (the last segment is the file name);
`sectionName` is the `section` field of the source (renamed: `section` is a
Lean keyword). `fileName` is the base name without the `.md` extension,
exactly as the scanner stores it. -/
structure ContentFile where
  path : String
  relativePath : List String
  language : Lang
  sectionName : String
  category : String
  subcategory : Option String
  fileName : String
  metadata : FrontMatter
  content : String
deriving DecidableEq, Repr

/-- Node type tag of a navigation node (the `type` field: `'category'` or
`'markdown'`). -/
inductive NodeType where
  | category
  | markdown
deriving DecidableEq, Repr

/-- `NavigationNode` from `types/navigation.ts`: the tree node produced by the
transformer. `order` models the optional numeric `order` property attached to
tracks nodes (`nodeType` renames the source's `type` field). -/
inductive NavNode where
  | mk (name : LocalizedString) (slug : LocalizedString) (origin : String)
       (nodeType : NodeType) (children : List NavNode) (order : Option Int)

/-- The localized display name of a node. -/
def NavNode.name : NavNode → LocalizedString
  | .mk n _ _ _ _ _ => n

/-- The localized slug of a node. -/
def NavNode.slug : NavNode → LocalizedString
  | .mk _ s _ _ _ _ => s

/-- The `origin` field (always `''` in the generator). -/
def NavNode.origin : NavNode → String
  | .mk _ _ o _ _ _ => o

/-- The node's type tag. -/
def NavNode.nodeType : NavNode → NodeType
  | .mk _ _ _ t _ _ => t

/-- The node's children list. -/
def NavNode.children : NavNode → List NavNode
  | .mk _ _ _ _ c _ => c

/-- The node's optional `order`. -/
def NavNode.order : NavNode → Option Int
  | .mk _ _ _ _ _ o => o

/-- Structured diagnostics. The source emits these through its logger as
formatted strings; we record the identifying payload of each message. -/
inductive Diag where
  | missingFields (path : String)
  | trueDuplicate (sectionName : String) (language : String) (slug : String)
deriving DecidableEq, Repr

/-- Generation options relevant to the embedded pipeline
(`GenerationOptions.languages` and `.showWarnings`). -/
structure GenOptions where
  languages : List Lang
  showWarnings : Bool
deriving DecidableEq, Repr

/-- The default language list `['en', 'es', 'pt']`. -/
def defaultLanguages : List Lang := [.en, .es, .pt]

/-- Default options used by the generator when no flags are passed. -/
def defaultOptions : GenOptions := ⟨defaultLanguages, false⟩

/-- Mutable state threaded through the transformer: the section-level
`processedSlugs` set and the accumulated duplicate warnings. -/
structure GenState where
  processedSlugs : List String
  diags : List Diag
deriving DecidableEq, Repr

/-- Is `c` one of `a`-`z` or `0`-`9`? (the character class kept by the
slugifier after lowercasing). -/
def isSlugChar (c : Char) : Bool :=
  (('a' ≤ c) && (c ≤ 'z')) || (('0' ≤ c) && (c ≤ '9'))

/-- Collapse runs of consecutive `'-'` characters into a single `'-'`
(the effect of replacing with the `/[^a-z0-9]+/g` regex, after every
non-kept character has been mapped to `'-'`). -/
def collapseDashes : List Char → List Char
  | [] => []
  | [c] => [c]
  | c1 :: c2 :: rest =>
    if c1 = '-' && c2 = '-' then collapseDashes (c2 :: rest)
    else c1 :: collapseDashes (c2 :: rest)

/-- Drop leading and trailing `'-'` characters (`/^-+|-+$/g`). -/
def trimDashes (cs : List Char) : List Char :=
  ((cs.dropWhile (· = '-')).reverse.dropWhile (· = '-')).reverse

/-- `slugify` as used throughout the generator: lowercase, replace every run
of characters outside `[a-z0-9]` by a single `'-'`, and trim leading/trailing
dashes.  This is literally the transformer's/linker's local implementation
`text.toLowerCase().replace(/[^a-z0-9]+/g, '-').replace(/^-+|-+$/g, '')`; the
current transformer delegates to the `slugify` npm package with
`lower/strict/trim` options, which agrees with it on the ASCII inputs
considered here (the package additionally transliterates non-ASCII letters). -/
def slugify (text : String) : String :=
  String.mk (trimDashes (collapseDashes
    ((text.toList.map Char.toLower).map (fun c => if isSlugChar c then c else '-'))))

/-- Model of `fileName.replace(/\.[^/.]+$/, '')`: strip a final dot-extension
(a `'.'` followed by one or more characters none of which is `'.'` or `'/'`). -/
def stripExtension (fileName : String) : String :=
  let rev := fileName.toList.reverse
  let ext := rev.takeWhile (fun c => c ≠ '.' && c ≠ '/')
  match rev.drop ext.length with
  | '.' :: restRev => if ext.length > 0 then String.mk restRev.reverse else fileName
  | _ => fileName

/-- `NavigationTransformer.generateSlugFromFilename`: remove the file
extension and slugify the remainder. -/
def generateSlugFromFilename (fileName : String) : String :=
  slugify (stripExtension fileName)

/-- `NavigationTransformer.getDocumentSlug` (current version): always returns
the filename-derived slug, "to ensure runtime consistency with systems that
resolve by filenames". -/
def getDocumentSlug (f : ContentFile) : String :=
  generateSlugFromFilename f.fileName

/-- The condition under which `getDocumentSlug` emits its `SLUG_MISMATCH`
warning through the logger: frontmatter `legacySlug` is present and differs
from the filename-derived slug.  (The warning itself is a logger side
effect; we model its trigger.) -/
def getDocumentSlugWarns (f : ContentFile) : Bool :=
  f.metadata.legacySlug ≠ "" &&
    f.metadata.legacySlug ≠ generateSlugFromFilename f.fileName

/-- The per-locale filename-derived slugs of the document children of a leaf
category, per locale: inside `generateLocalizedCategorySlugs` the source adds
`getDocumentSlug(file)` to `childSlugsByLocale[file.language]`. -/
def childDocSlugs (loc : Lang) (files : List ContentFile) : List String :=
  (files.filter (fun f => f.language = loc)).map getDocumentSlug

/-- The slugified localized category name with the source's fallback chain
(`name.en || name.es || name.pt || 'category'`, per locale). -/
def categoryBaseSlug (name : LocalizedString) : Lang → String
  | .en => slugify (if name.en ≠ "" then name.en
      else if name.es ≠ "" then name.es
      else if name.pt ≠ "" then name.pt else "category")
  | .es => slugify (if name.es ≠ "" then name.es
      else if name.en ≠ "" then name.en
      else if name.pt ≠ "" then name.pt else "category")
  | .pt => slugify (if name.pt ≠ "" then name.pt
      else if name.en ≠ "" then name.en
      else if name.es ≠ "" then name.es else "category")

/-- The bounded conflict-resolution loop of `generateLocalizedCategorySlugs`:
`while (set.has(candidate) && iterations < 3) candidate += '-category'`,
unrolled (the loop body runs at most three times). -/
def resolveSlugConflict (taken : List String) (c0 : String) : String :=
  if taken.contains c0 then
    let c1 := c0 ++ "-category"
    if taken.contains c1 then
      let c2 := c1 ++ "-category"
      if taken.contains c2 then c2 ++ "-category" else c2
    else c1
  else c0

/-- `NavigationTransformer.generateLocalizedCategorySlugs`: slugify the
localized names (with fallback chain); when the category is a leaf with
document children (`Array.isArray(children)`, modelled by `some files`),
resolve collisions against the children's per-locale document slugs. -/
def generateLocalizedCategorySlugs (name : LocalizedString)
    (children : Option (List ContentFile)) : LocalizedString :=
  match children with
  | some files =>
    ⟨resolveSlugConflict (childDocSlugs .en files) (categoryBaseSlug name .en),
     resolveSlugConflict (childDocSlugs .es files) (categoryBaseSlug name .es),
     resolveSlugConflict (childDocSlugs .pt files) (categoryBaseSlug name .pt)⟩
  | none =>
    ⟨categoryBaseSlug name .en, categoryBaseSlug name .es, categoryBaseSlug name .pt⟩

/-- `JSON.stringify` of a localized-slug object, used by the merge engine as
a fallback key when the English slug is empty.  Faithful for slug values,
which never contain characters needing JSON escapes. -/
def jsonStringifySlug (s : LocalizedString) : String :=
  "\x7b\"en\":\"" ++ s.en ++ "\",\"es\":\"" ++ s.es ++ "\",\"pt\":\"" ++ s.pt ++ "\"\x7d"

/-- The merge key of a node inside `mergeCategoryNodeLists`:
`slugVal?.en || JSON.stringify(slugVal)` (the `typeof slugVal === 'string'`
branch cannot fire in the current generator, where every slug is a
`LocalizedString` object). -/
def keyOf (n : NavNode) : String :=
  if n.slug.en ≠ "" then n.slug.en else jsonStringifySlug n.slug

/-- The `mergeNames` helper of `mergeCategoryNodeLists`: for each language,
fill an empty target slot from a non-empty source slot. -/
def mergeNames (target src : LocalizedString) : LocalizedString :=
  ⟨if target.en = "" && src.en ≠ "" then src.en else target.en,
   if target.es = "" && src.es ≠ "" then src.es else target.es,
   if target.pt = "" && src.pt ≠ "" then src.pt else target.pt⟩

/-- Inner loop of the `dedupeDocs` helper: keep, per merge key, the first
`markdown` node encountered (a JS `Map` keyed by the slug key). -/
def dedupeDocsGo : List NavNode → List (String × NavNode) → List (String × NavNode)
  | [], acc => acc
  | it :: rest, acc =>
    if it.nodeType = .markdown then
      let key := keyOf it
      if acc.any (fun p => p.1 = key) then dedupeDocsGo rest acc
      else dedupeDocsGo rest (acc ++ [(key, it)])
    else dedupeDocsGo rest acc

/-- The `dedupeDocs` helper of `mergeCategoryNodeLists`: deduplicate document
children by English slug, first occurrence wins, insertion order preserved. -/
def dedupeDocs (items : List NavNode) : List NavNode :=
  (dedupeDocsGo items []).map Prod.snd

/-- Look up the value stored under key `k` in an association list. -/
def assocGet (k : String) : List (String × NavNode) → Option NavNode
  | [] => none
  | (k', v) :: rest => if k' = k then some v else assocGet k rest

/-- Replace the value stored under key `k` (first occurrence), keeping the
entry's position — the JS `Map.set` on an existing key. -/
def assocReplace (k : String) (v : NavNode) :
    List (String × NavNode) → List (String × NavNode)
  | [] => []
  | (k', v') :: rest =>
    if k' = k then (k', v) :: rest else (k', v') :: assocReplace k v rest

/-- The fold of `mergeCategoryNodeLists` over its input, accumulating the
insertion-ordered `bySlug` map, parameterized by the function used to merge
the category children of two merged siblings (the recursive call of the
source): non-category nodes are skipped; a new key stores a (shallow clone of
the) node; an existing key merges localized names and children — category
children merge recursively by slug, document children dedupe by English slug. -/
def mergeIntoWith (mergeChildren : List NavNode → List NavNode) :
    List NavNode → List (String × NavNode) → List (String × NavNode)
  | [], acc => acc
  | node :: rest, acc =>
    if node.nodeType ≠ .category then mergeIntoWith mergeChildren rest acc
    else
      let key := keyOf node
      match assocGet key acc with
      | none => mergeIntoWith mergeChildren rest (acc ++ [(key, node)])
      | some existing =>
        let mergedName := mergeNames existing.name node.name
        let mergedChildren := existing.children ++ node.children
        let categoryChildren := mergedChildren.filter (fun ch => ch.nodeType = .category)
        let docChildren := mergedChildren.filter (fun ch => ch.nodeType = .markdown)
        let mergedCategoryChildren := mergeChildren categoryChildren
        let dedupedDocs := dedupeDocs docChildren
        let updated := NavNode.mk mergedName existing.slug existing.origin
          existing.nodeType (mergedCategoryChildren ++ dedupedDocs) existing.order
        mergeIntoWith mergeChildren rest (assocReplace key updated acc)

/-- `NavigationTransformer.mergeCategoryNodeLists`, with an explicit fuel
bounding the recursion depth (the source recurses on the category children of
merged siblings; `mergeCategoryNodeLists` below supplies fuel exceeding the
total size of the input, which bounds any chain of child recursions, so the
`0` case is never reached on its actual arguments).  The `0` case leaves the
list unchanged.  Defined through `Nat.rec` so that the definition unfolds by
ordinary iota reduction. -/
def mergeCategoryNodeListsFuel (fuel : Nat) : List NavNode → List NavNode :=
  Nat.rec (fun nodes => nodes)
    (fun _ mergePrev nodes => (mergeIntoWith mergePrev nodes []).map Prod.snd)
    fuel

/-- Unfolding `mergeCategoryNodeListsFuel` at zero fuel. -/
theorem mergeFuel_zero (nodes : List NavNode) :
    mergeCategoryNodeListsFuel 0 nodes = nodes := rfl

/-- Unfolding `mergeCategoryNodeListsFuel` at successor fuel. -/
theorem mergeFuel_succ (fuel : Nat) (nodes : List NavNode) :
    mergeCategoryNodeListsFuel (fuel + 1) nodes =
      (mergeIntoWith (mergeCategoryNodeListsFuel fuel) nodes []).map Prod.snd := rfl

mutual

/-- Structural size of a navigation node (used only to pick adequate fuel). -/
def NavNode.size : NavNode → Nat
  | .mk _ _ _ _ children _ => 1 + NavNode.sizeList children

/-- Total structural size of a list of navigation nodes. -/
def NavNode.sizeList : List NavNode → Nat
  | [] => 0
  | n :: rest => NavNode.size n + NavNode.sizeList rest

end

/-- `NavigationTransformer.mergeCategoryNodeLists`: merge sibling category
nodes by their English slug.  `NavNode.sizeList nodes + 1` strictly exceeds
the size of any chain of nested child lists the recursion can visit, so it is
adequate fuel and the fuel cutoff is never reached. -/
def mergeCategoryNodeLists (nodes : List NavNode) : List NavNode :=
  mergeCategoryNodeListsFuel (NavNode.sizeList nodes + 1) nodes

/-- Insert `x` into `l`, after every element `y` with `le y x` — the insertion
step of a stable sort. -/
def insertSorted (le : NavNode → NavNode → Bool) (x : NavNode) :
    List NavNode → List NavNode
  | [] => [x]
  | y :: ys => if le y x then y :: insertSorted le x ys else x :: y :: ys

/-- Stable sort by the boolean preorder `le` (insertion sort).  JS
`Array.prototype.sort` is required to be stable; for a comparator inducing a
total preorder — which all the generator's comparators do — every stable sort
produces the same list, so this models the source's `nodes.sort(cmp)`. -/
def stableSortBy (le : NavNode → NavNode → Bool) (l : List NavNode) : List NavNode :=
  l.foldl (fun acc x => insertSorted le x acc) []

/-- Lexicographic comparison of character lists (by code point), modelling
`localeCompare` on the ASCII titles considered in the concrete theorems. -/
def compareCharList : List Char → List Char → Ordering
  | [], [] => .eq
  | [], _ :: _ => .lt
  | _ :: _, [] => .gt
  | a :: as, b :: bs =>
    if a < b then .lt else if b < a then .gt else compareCharList as bs

/-- The lowercased English display name, `(a.name.en || '').toLowerCase()`,
as its character list (lowercasing char by char as `toLowerCase` does on the
ASCII titles considered here). -/
def titleKeyEn (n : NavNode) : List Char := n.name.en.toList.map Char.toLower

/-- The default comparator of `sortDocumentNodes`/`sortCategoryNodes`, as the
"may stay before" relation: `titleA.localeCompare(titleB) <= 0`. -/
def defaultTitleLe (a b : NavNode) : Bool :=
  compareCharList (titleKeyEn a) (titleKeyEn b) ≠ .gt

/-- The tracks comparator: ascending by numeric `order` when both have one, a
node with an `order` before a node without, otherwise by English title. -/
def tracksCmp (a b : NavNode) : Ordering :=
  match a.order, b.order with
  | some x, some y => compare x y
  | some _, none => .lt
  | none, some _ => .gt
  | none, none => compareCharList (titleKeyEn a) (titleKeyEn b)

/-- The tracks comparator as a "may stay before" relation. -/
def tracksLe (a b : NavNode) : Bool := tracksCmp a b ≠ .gt

/-- `NavigationTransformer.sortDocumentNodes`: tracks sort by `order`
(falling back to title), every other section — announcements included — sorts
by lowercased English title. -/
def sortDocumentNodes (sectionName : String) (nodes : List NavNode) : List NavNode :=
  if sectionName = "tracks" then stableSortBy tracksLe nodes
  else stableSortBy defaultTitleLe nodes

/-- `NavigationTransformer.sortCategoryNodes`: same policy as
`sortDocumentNodes` (the source duplicates the comparator). -/
def sortCategoryNodes (sectionName : String) (nodes : List NavNode) : List NavNode :=
  if sectionName = "tracks" then stableSortBy tracksLe nodes
  else stableSortBy defaultTitleLe nodes

/-- `/^\d+\./` — does the string start with one or more digits followed by a
dot? (the idempotence guard of `addOrderNumbersToArticleNames`). -/
def hasNumericTitleStart (s : String) : Bool :=
  let ds := s.toList.takeWhile Char.isDigit
  ds ≠ [] && (s.toList.drop ds.length).head? = some '.'

/-- Prefix one localized slot with `"{n}. "` under the source's guards:
slot non-empty, non-blank after trim, and not already carrying a numeric
prefix. -/
def addOrderNumberToSlot (n : Nat) (v : String) : String :=
  if v ≠ "" && v.trim ≠ "" && !hasNumericTitleStart v then
    toString n ++ ". " ++ v
  else v

/-- Apply `addOrderNumberToSlot` to the three locales of an article name. -/
def addOrderNumberToName (n : Nat) (name : LocalizedString) : LocalizedString :=
  ⟨addOrderNumberToSlot n name.en, addOrderNumberToSlot n name.es,
   addOrderNumberToSlot n name.pt⟩

/-- Walk a sibling list numbering the `markdown` nodes 1, 2, 3, … by their
position among the markdown nodes (non-markdown nodes keep the counter). -/
def addOrderNumbersGo : List NavNode → Nat → List NavNode
  | [], _ => []
  | node :: rest, idx =>
    if node.nodeType = .markdown then
      NavNode.mk (addOrderNumberToName (idx + 1) node.name) node.slug node.origin
          node.nodeType node.children node.order :: addOrderNumbersGo rest (idx + 1)
    else node :: addOrderNumbersGo rest idx

/-- `NavigationTransformer.addOrderNumbersToArticleNames` (tracks only):
prefix sorted track article titles with their 1-based position. -/
def addOrderNumbersToArticleNames (nodes : List NavNode) : List NavNode :=
  addOrderNumbersGo nodes 0

/-- `CrossLanguageDocument` of the linker: the per-`slugEN` multilingual
record.  The per-language file references `crossLangDoc[lang]` are kept in
three `Option` fields; `title`/`slug`/`categories` start as empty objects in
JS, modelled by all-`""` slots (`undefined` and `""` are both falsy wherever
these slots are read). -/
structure CrossLanguageDocument where
  slugEN : String
  title : LocalizedString
  slug : LocalizedString
  categories : LocalizedString
  fileEn : Option ContentFile
  fileEs : Option ContentFile
  filePt : Option ContentFile
deriving DecidableEq, Repr

/-- The stored per-language file reference (`crossLangDoc[lang]`). -/
def CrossLanguageDocument.fileFor (d : CrossLanguageDocument) : Lang → Option ContentFile
  | .en => d.fileEn
  | .es => d.fileEs
  | .pt => d.filePt

/-- Store a per-language file reference (`crossLangDoc[lang] = file`). -/
def CrossLanguageDocument.setFile (d : CrossLanguageDocument) :
    Lang → ContentFile → CrossLanguageDocument
  | .en, f => { d with fileEn := some f }
  | .es, f => { d with fileEs := some f }
  | .pt, f => { d with filePt := some f }

/-- `CrossLanguageLinker.buildCategoryPath`: `section > category >
subcategory`, skipping an absent/`'Uncategorized'` category and an absent
subcategory. -/
def buildCategoryPath (f : ContentFile) : String :=
  let parts := [f.sectionName]
  let parts := if f.category ≠ "" && f.category ≠ "Uncategorized"
    then parts ++ [f.category] else parts
  let parts := match f.subcategory with
    | some sub => if sub ≠ "" then parts ++ [sub] else parts
    | none => parts
  String.intercalate " > " parts

/-- One step of `createCrossLanguageDocument`'s loop over the language
versions: store the file reference, the localized title, the localized slug
(`legacySlug` if present, else the filename-derived slug) and the localized
category path. -/
def addLanguageVersion (d : CrossLanguageDocument) (f : ContentFile) :
    CrossLanguageDocument :=
  let lang := f.language
  let d := d.setFile lang f
  let d := { d with title := d.title.set lang f.metadata.title }
  let localSlug := if f.metadata.legacySlug ≠ "" then f.metadata.legacySlug
    else generateSlugFromFilename f.fileName
  let d := { d with slug := d.slug.set lang localSlug }
  { d with categories := d.categories.set lang (buildCategoryPath f) }

/-- The first language of `['en', 'es', 'pt']` for which a file reference is
stored — the fallback language chosen by `fillMissingLanguageFallbacks`. -/
def firstAvailableLang (d : CrossLanguageDocument) : Option Lang :=
  if d.fileEn.isSome then some .en
  else if d.fileEs.isSome then some .es
  else if d.filePt.isSome then some .pt
  else none

/-- The title mutation of the fallback-filling loop for target `t`: an empty
title slot is **copied** from the fallback language's title. -/
def fillTitleFor (fb : Lang) (d : CrossLanguageDocument) (t : Lang) :
    CrossLanguageDocument :=
  if d.title.get t = "" then { d with title := d.title.set t (d.title.get fb) }
  else d

/-- The slug mutation of the fallback-filling loop for target `t`: an empty
slug slot is set to the explicit empty string — never copied. -/
def fillSlugFor (d : CrossLanguageDocument) (t : Lang) : CrossLanguageDocument :=
  if d.slug.get t = "" then { d with slug := d.slug.set t "" } else d

/-- The categories mutation of the fallback-filling loop for target `t`. -/
def fillCategoriesFor (fb : Lang) (d : CrossLanguageDocument) (t : Lang) :
    CrossLanguageDocument :=
  if d.categories.get t = "" then
    { d with categories := d.categories.set t (d.categories.get fb) }
  else d

/-- One step of the fallback-filling loop, for target language `t`: the three
sequential mutations of the source's loop body. -/
def fillFallbackFor (fb : Lang) (d : CrossLanguageDocument) (t : Lang) :
    CrossLanguageDocument :=
  fillCategoriesFor fb (fillSlugFor (fillTitleFor fb d t) t) t

/-- `CrossLanguageLinker.fillMissingLanguageFallbacks`: choose the first
available language as fallback (English first) and fill each configured
target language's empty slots as in `fillFallbackFor`, sequentially. -/
def fillMissingLanguageFallbacks (languages : List Lang)
    (d : CrossLanguageDocument) : CrossLanguageDocument :=
  match firstAvailableLang d with
  | none => d
  | some fb => languages.foldl (fillFallbackFor fb) d

/-- `CrossLanguageLinker.createCrossLanguageDocument`: fold the language
versions of one `slugEN` group into a multilingual record, then fill
missing-language fallbacks. -/
def createCrossLanguageDocument (languages : List Lang) (slugEN : String)
    (files : List ContentFile) : CrossLanguageDocument :=
  let init : CrossLanguageDocument :=
    ⟨slugEN, LocalizedString.empty, LocalizedString.empty, LocalizedString.empty,
     none, none, none⟩
  fillMissingLanguageFallbacks languages (files.foldl addLanguageVersion init)

/-- Insertion-ordered grouping of a list by a string key (the behavior of the
JS idiom `map.get(k).push(x)` over a `Map`). -/
def groupByKey (key : ContentFile → String) (files : List ContentFile) :
    List (String × List ContentFile) :=
  files.foldl (fun acc f =>
    let k := key f
    if acc.any (fun p => p.1 = k) then
      acc.map (fun p => if p.1 = k then (p.1, p.2 ++ [f]) else p)
    else acc ++ [(k, [f])]) []

/-- `CrossLanguageLinker.buildCrossLanguageMap`: group the files by their
frontmatter `slugEN` (files with an empty `slugEN` are skipped with a
warning) and link each group into one `CrossLanguageDocument`. -/
def buildCrossLanguageMap (languages : List Lang) (files : List ContentFile) :
    List (String × CrossLanguageDocument) :=
  (groupByKey (fun f => f.metadata.slugEN)
      (files.filter (fun f => f.metadata.slugEN ≠ ""))).map
    (fun p => (p.1, createCrossLanguageDocument languages p.1 p.2))

/-- Look up a `slugEN` key in the cross-language map
(`hierarchy.crossLanguageMap[slugEN]`). -/
def crossMapGet (m : List (String × CrossLanguageDocument)) (k : String) :
    Option CrossLanguageDocument :=
  (m.find? (fun p => p.1 = k)).map Prod.snd

/-- `NavigationTransformer.buildDocumentNode`: take the multilingual titles
and slugs from the cross-language map when the file's `slugEN` is linked
there; otherwise fill only the file's own language slot and leave the other
slots as explicit empty strings.  The optional `order` is taken from the
frontmatter.  (The source's `try/catch` returns `null` only on exceptions,
which the model has none of.) -/
def buildDocumentNode (opts : GenOptions)
    (crossMap : List (String × CrossLanguageDocument)) (f : ContentFile) : NavNode :=
  match crossMapGet crossMap f.metadata.slugEN with
  | some cd => NavNode.mk cd.title cd.slug "" .markdown [] f.metadata.order
  | none =>
    let name := opts.languages.foldl
      (fun (n : LocalizedString) lang =>
        if lang = f.language then n.set lang f.metadata.title else n)
      LocalizedString.empty
    let slug := opts.languages.foldl
      (fun (s : LocalizedString) lang =>
        if lang = f.language then s.set lang (getDocumentSlug f) else s)
      LocalizedString.empty
    NavNode.mk name slug "" .markdown [] f.metadata.order

/-- The grouping key of `buildDocumentNodes`:
`file.metadata.slugEN || this.getDocumentSlug(file)`. -/
def docGroupKey (f : ContentFile) : String :=
  if f.metadata.slugEN ≠ "" then f.metadata.slugEN else getDocumentSlug f

/-- The true-duplicate detection of `buildDocumentNodes`: group by the
composite key `section|language|slugEN` and report every group of size > 1
(one warning per group; the source recovers the three parts by splitting the
key, modelled by reading them off the group's first file). -/
def duplicateDiags (sectionName : String) (files : List ContentFile) : List Diag :=
  (groupByKey (fun f => sectionName ++ "|" ++ f.language.code ++ "|" ++ docGroupKey f)
      files).filterMap
    (fun p =>
      if p.2.length > 1 then
        match p.2.head? with
        | some f => some (Diag.trueDuplicate sectionName f.language.code (docGroupKey f))
        | none => none
      else none)

/-- The second pass of `buildDocumentNodes`: walk the `slugEN` groups in
insertion order, skipping any group whose key is already in the section-level
`processedSlugs` set, and build one document node per new group from its
first file.  (The source also records `fileMap.set(slugEN, firstFile)`, but
that map is never read afterwards.) -/
def processSlugGroups (opts : GenOptions)
    (crossMap : List (String × CrossLanguageDocument)) :
    List (String × List ContentFile) → GenState → List NavNode × GenState
  | [], st => ([], st)
  | (k, group) :: rest, st =>
    if st.processedSlugs.contains k then processSlugGroups opts crossMap rest st
    else
      match group.head? with
      | none => processSlugGroups opts crossMap rest st
      | some firstFile =>
        let st' : GenState := { st with processedSlugs := st.processedSlugs ++ [k] }
        let node := buildDocumentNode opts crossMap firstFile
        let (ns, st'') := processSlugGroups opts crossMap rest st'
        (node :: ns, st'')

/-- `NavigationTransformer.buildDocumentNodes`: group the leaf files by
`slugEN`, report true duplicates (same section + language + slug) when
`--show-warnings` is on, build one node per unseen group, then apply the
section sort policy and — for tracks — the positional title prefixes.  (The
source's removal of duplicate files from its local `files` variable happens
after the groups were built and the variable is never read again.) -/
def buildDocumentNodes (opts : GenOptions)
    (crossMap : List (String × CrossLanguageDocument)) (sectionName : String)
    (files : List ContentFile) (st : GenState) : List NavNode × GenState :=
  let groups := groupByKey docGroupKey files
  let dupDiags := if opts.showWarnings then duplicateDiags sectionName files else []
  let st := { st with diags := st.diags ++ dupDiags }
  let (nodes, st') := processSlugGroups opts crossMap groups st
  let sorted := sortDocumentNodes sectionName nodes
  let final := if sectionName = "tracks" then addOrderNumbersToArticleNames sorted
    else sorted
  (final, st')

/-- The category-map entry consumed by `buildNavigationNode`: a localized raw
name, an optional `order`, and children that are either an array of content
files (leaf category) or a nested category map (JS object, modelled as an
insertion-ordered association list). -/
inductive CatInfo where
  | docsNode (name : LocalizedString) (order : Option Int) (files : List ContentFile)
  | subsNode (name : LocalizedString) (order : Option Int)
      (entries : List (String × CatInfo))

/-- The name population of `buildNavigationNode`: start from all-empty slots
and copy `rawName[lang] || ''` for every configured language. -/
def restrictName (languages : List Lang) (raw : LocalizedString) : LocalizedString :=
  ⟨if languages.contains .en then raw.en else "",
   if languages.contains .es then raw.es else "",
   if languages.contains .pt then raw.pt else ""⟩

mutual

/-- Nesting depth of a category-map entry (used only to pick adequate fuel
for the mutual recursion of the source's builders). -/
def CatInfo.depth : CatInfo → Nat
  | .docsNode _ _ _ => 1
  | .subsNode _ _ entries => 1 + CatInfo.depthEntries entries

/-- Maximum nesting depth over a category map. -/
def CatInfo.depthEntries : List (String × CatInfo) → Nat
  | [] => 0
  | (_, ci) :: rest => max (CatInfo.depth ci) (CatInfo.depthEntries rest)

end

/-- The entry loop of `buildCategoryNodes`, parameterized by the node builder
(the mutual recursive call of the source): build each entry's node in map
order, keeping the non-`null` results and threading the section state. -/
def buildCategoryNodesRawWith
    (build : CatInfo → GenState → Option NavNode × GenState) :
    List (String × CatInfo) → GenState → List NavNode × GenState
  | [], st => ([], st)
  | (_, ci) :: rest, st =>
    let res := build ci st
    let restRes := buildCategoryNodesRawWith build rest res.2
    (match res.1 with
     | some n => n :: restRes.1
     | none => restRes.1, restRes.2)

/-- `NavigationTransformer.buildCategoryNodes`, parameterized by the node
builder: build the nodes of one category map, drop the ones that ended up
with no children, merge by English slug, and apply the section sort policy. -/
def buildCategoryNodesWith
    (build : CatInfo → GenState → Option NavNode × GenState)
    (sectionName : String) (entries : List (String × CatInfo)) (st : GenState) :
    List NavNode × GenState :=
  let res := buildCategoryNodesRawWith build entries st
  let nonEmpty := res.1.filter (fun n => !n.children.isEmpty)
  let merged := mergeCategoryNodeLists nonEmpty
  (sortCategoryNodes sectionName merged, res.2)

/-- `NavigationTransformer.buildNavigationNode` with an explicit fuel
bounding the category-nesting depth (defined through `Nat.rec` so that the
definition unfolds by iota reduction; `buildNavigationNode` below supplies
the entry's actual depth, so the `0` case is never reached):
build one category node.  A leaf category builds its document nodes and is
pruned (`null`) when none remain; a nested category builds its subcategory
list recursively and is pruned when it comes back empty.  The optional
`order` is attached only in the leaf branch, exactly as in the source. -/
def buildNavigationNodeFuel (opts : GenOptions)
    (crossMap : List (String × CrossLanguageDocument)) (sectionName : String)
    (fuel : Nat) : CatInfo → GenState → Option NavNode × GenState :=
  Nat.rec (fun _ st => (none, st))
    (fun _ buildPrev ci st =>
      match ci with
      | .docsNode rawName order files =>
        let name := restrictName opts.languages rawName
        let slug := generateLocalizedCategorySlugs name (some files)
        let res := buildDocumentNodes opts crossMap sectionName files st
        if res.1.isEmpty then (none, res.2)
        else (some (.mk name slug "" .category res.1 order), res.2)
      | .subsNode rawName _ entries =>
        let name := restrictName opts.languages rawName
        let slug := generateLocalizedCategorySlugs name none
        let res := buildCategoryNodesWith buildPrev sectionName entries st
        if res.1.isEmpty then (none, res.2)
        else (some (.mk name slug "" .category res.1 none), res.2))
    fuel

/-- `NavigationTransformer.buildNavigationNode`: the fuelled builder at the
entry's actual nesting depth (adequate fuel: each recursion step descends one
nesting level). -/
def buildNavigationNode (opts : GenOptions)
    (crossMap : List (String × CrossLanguageDocument)) (sectionName : String)
    (ci : CatInfo) (st : GenState) : Option NavNode × GenState :=
  buildNavigationNodeFuel opts crossMap sectionName (CatInfo.depth ci) ci st

/-- `NavigationTransformer.buildCategoryNodes`: build one category map with
the fuelled node builder at the map's maximum depth. -/
def buildCategoryNodes (opts : GenOptions)
    (crossMap : List (String × CrossLanguageDocument)) (sectionName : String)
    (entries : List (String × CatInfo)) (st : GenState) :
    List NavNode × GenState :=
  buildCategoryNodesWith
    (buildNavigationNodeFuel opts crossMap sectionName (CatInfo.depthEntries entries))
    sectionName entries st

/-- `word.toLowerCase()`, character by character. -/
def lowerStr (w : String) : String :=
  String.mk (w.toList.map Char.toLower)

/-- `VTEX_ACRONYMS` from `source/config/acronyms`: the static dictionary from
lowercased words to their proper casing, in source order. -/
def VTEX_ACRONYMS : List (String × String) :=
  [("vtex", "VTEX"), ("sku", "SKU"), ("api", "API"), ("id", "ID"),
   ("url", "URL"), ("cms", "CMS"), ("io", "IO"),
   ("b2b", "B2B"), ("b2c", "B2C"), ("oms", "OMS"), ("erp", "ERP"),
   ("crm", "CRM"),
   ("html", "HTML"), ("css", "CSS"), ("js", "JS"), ("json", "JSON"),
   ("xml", "XML"), ("http", "HTTP"), ("https", "HTTPS"), ("ssl", "SSL"),
   ("tls", "TLS"), ("cdn", "CDN"), ("dns", "DNS"), ("rest", "REST"),
   ("seo", "SEO"), ("utm", "UTM"), ("ean", "EAN"), ("sla", "SLA"),
   ("pdp", "PDP"), ("plp", "PLP"), ("faq", "FAQ"), ("pci", "PCI"),
   ("fba", "FBA"), ("pwa", "PWA"),
   ("csv", "CSV"), ("png", "PNG"), ("jpg", "JPG"), ("jpeg", "JPEG"),
   ("gif", "GIF"), ("pdf", "PDF"), ("zip", "ZIP"),
   ("pse", "PSE"), ("pix", "PIX"), ("cvv", "CVV"), ("bin", "BIN"),
   ("tid", "TID"), ("nsu", "NSU"),
   ("usd", "USD"), ("brl", "BRL"), ("us", "US"), ("br", "BR"),
   ("en", "EN"), ("pt", "PT"), ("es", "ES"), ("utc", "UTC"),
   ("aws", "AWS"), ("cli", "CLI"), ("ide", "IDE"), ("ui", "UI"),
   ("ux", "UX"), ("sms", "SMS"), ("smtp", "SMTP"), ("waf", "WAF"),
   ("spf", "SPF"), ("caa", "CAA"), ("qr", "QR"),
   ("cep", "CEP"), ("cnpj", "CNPJ"), ("cpf", "CPF"), ("cname", "CNAME"),
   ("wms", "WMS"), ("pim", "PIM"), ("pos", "POS"),
   ("sso", "SSO"), ("saml", "SAML"), ("gdpr", "GDPR"), ("ascii", "ASCII"),
   ("utf", "UTF"), ("hex", "HEX"), ("mcf", "MCF"), ("har", "HAR"),
   ("mb", "MB"), ("gb", "GB"), ("mm", "MM"), ("ip", "IP"), ("kit", "KIT"),
   ("meli", "MELI"), ("gtm", "GTM"), ("nps", "NPS"), ("hub", "HUB"),
   ("ads", "ADS"), ("gmc", "GMC"),
   ("get", "GET"), ("post", "POST"), ("put", "PUT"), ("ok", "OK"),
   ("and", "AND"), ("or", "OR"), ("new", "NEW"), ("old", "OLD"),
   ("true", "TRUE"), ("false", "FALSE"), ("null", "NULL"),
   ("beta", "BETA"), ("draft", "DRAFT"),
   ("spa", "SPA"), ("sdk", "SDK"), ("orm", "ORM"), ("sql", "SQL"),
   ("nosql", "NoSQL"), ("tcp", "TCP"), ("udp", "UDP"), ("ftp", "FTP"),
   ("ssh", "SSH"), ("vpn", "VPN"), ("ddos", "DDoS"), ("csrf", "CSRF"),
   ("xss", "XSS"), ("cors", "CORS")]

/-- `getAcronymCase` from `source/config/acronyms`:
`VTEX_ACRONYMS[word.toLowerCase()]`. -/
def getAcronymCase (word : String) : Option String :=
  (VTEX_ACRONYMS.find? (fun p => p.1 = lowerStr word)).map Prod.snd

/-- `word.charAt(0).toUpperCase() + word.slice(1).toLowerCase()`. -/
def capitalizeWord (w : String) : String :=
  match w.toList with
  | [] => ""
  | c :: rest => String.mk (c.toUpper :: rest.map Char.toLower)

/-- `normalizeCategoryName` from `utils/categoryNormalization.ts` (current
version): map kebab/snake case to Title Case word by word, using the acronym
dictionary for known acronyms; an absent name becomes `'Uncategorized'`. -/
def normalizeCategoryName (name : String) : String :=
  if name = "" then "Uncategorized"
  else
    let words := ((name.replace "-" " ").replace "_" " ").splitOn " "
    String.intercalate " "
      (words.map (fun w =>
        match getAcronymCase (lowerStr w) with
        | some a => a
        | none => capitalizeWord w))

/-- The raw input of `parseMarkdownFile`: the file's path, its path segments
relative to the section directory (directory segments then file name), its
base name without the `.md` extension, the parsed frontmatter, and the body.
Reading and frontmatter parsing are the scanner's I/O, outside the model. -/
structure RawFile where
  filePath : String
  relParts : List String
  baseName : String
  fm : FrontMatter
  body : String
deriving DecidableEq, Repr

/-- `ContentScanner.parseMarkdownFile`: drop (with a warning) any file whose
frontmatter lacks `title` or `slugEN`; silently drop any file whose `status`
is present and differs from `'PUBLISHED'`; otherwise produce the
`ContentFile` record, deriving `category`/`subcategory` from the first two
directory segments (normalized) and defaulting the `locale` to the scan
language. -/
def parseMarkdownFile (language : Lang)
    (sectionName : String) (raw : RawFile) : Option ContentFile × List Diag :=
  if raw.fm.title = "" || raw.fm.slugEN = "" then
    (none, [Diag.missingFields raw.filePath])
  else if raw.fm.status ≠ "" && raw.fm.status ≠ "PUBLISHED" then
    (none, [])
  else
    let pathParts := (raw.relParts.dropLast).filter (fun p => p ≠ ".")
    let category := match pathParts.head? with
      | some c => c
      | none => "uncategorized"
    let subcategory := pathParts.get? 1
    (some
      { path := raw.filePath
        relativePath := raw.relParts
        language := language
        sectionName := sectionName
        category := normalizeCategoryName category
        subcategory := subcategory.map normalizeCategoryName
        fileName := raw.baseName
        metadata := { raw.fm with
          locale := if raw.fm.locale ≠ "" then raw.fm.locale else language.code }
        content := raw.body }, [])

/-- The record list produced by scanning a list of raw files (each tagged
with its scan language and section): parse each file, keep the successful
records in order, and accumulate the diagnostics.  A failed parse only skips
its own file — scanning always continues. -/
def scanRecords :
    List (Lang × String × RawFile) → List ContentFile × List Diag
  | [] => ([], [])
  | (lang, sec, raw) :: rest =>
    let parsed := parseMarkdownFile lang sec raw
    let restRes := scanRecords rest
    (match parsed.1 with
     | some cf => cf :: restRes.1
     | none => restRes.1, parsed.2 ++ restRes.2)

/-- First index of `s` in `xs` (`Array.prototype.indexOf`, `none` for -1). -/
def idxOf : List String → String → Option Nat
  | [], _ => none
  | x :: xs, s => if x = s then some 0 else (idxOf xs s).map (· + 1)

/-- The bottom fallback of `CategoryBuilder.extractCanonicalSlug`:
`file.category || pathSegments[pathSegments.length - 2] || 'uncategorized'`. -/
def canonicalSlugBottom (f : ContentFile) : String :=
  if f.category ≠ "" then f.category
  else
    let ps := f.relativePath
    let seg := if ps.length ≥ 2 then ps.getD (ps.length - 2) "" else ""
    if seg ≠ "" then seg else "uncategorized"

/-- `'' → 'uncategorized'` (the `|| 'uncategorized'` applied to a segment). -/
def segOrUncategorized (s : String) : String :=
  if s = "" then "uncategorized" else s

/-- `CategoryBuilder.extractCanonicalSlug`: derive a canonical category slug
from the file's path segments, per section; note that `relativePath` is
relative to the section directory, so the `indexOf` searches for the section
name generally fail and the bottom fallback (the scanner-computed `category`
field) applies. -/
def extractCanonicalSlug (f : ContentFile) : String :=
  let ps := f.relativePath
  if f.sectionName = "tracks" then
    match idxOf ps "tracks" with
    | some i =>
      if i + 1 < ps.length then segOrUncategorized (ps.getD (i + 1) "")
      else canonicalSlugBottom f
    | none => canonicalSlugBottom f
  else if f.sectionName = "faq" then
    match idxOf ps "faq" with
    | some i =>
      if i + 1 < ps.length then segOrUncategorized (ps.getD (i + 1) "")
      else canonicalSlugBottom f
    | none => canonicalSlugBottom f
  else if f.sectionName = "tutorials" then
    match idxOf ps "tutorials" with
    | some i =>
      if i + 1 < ps.length then
        let categoryPath := String.intercalate "-" ((ps.drop (i + 1)).dropLast)
        if categoryPath ≠ "" then categoryPath else "uncategorized"
      else canonicalSlugBottom f
    | none => canonicalSlugBottom f
  else canonicalSlugBottom f

/-- `CategoryBuilder.extractCanonicalSlugWithEnglishFallback`: when an
English file with the same frontmatter `slugEN` exists in the batch, the
English file's folder structure is canonical; otherwise the file's own. -/
def extractCanonicalSlugWithEnglishFallback (f : ContentFile)
    (allFiles : List ContentFile) : String :=
  let englishFiles := allFiles.filter
    (fun g => g.language = Lang.en && g.metadata.slugEN = f.metadata.slugEN)
  match englishFiles.head? with
  | some e => extractCanonicalSlug e
  | none => extractCanonicalSlug f

/-- The grouping key of `CategoryBuilder.groupFilesByHierarchicalPath`
(used for the `tutorials` section): the `/`-joined directory segments of
`relativePath`; `none` when the file has no directory segments (such files
are not grouped). -/
def hierarchicalPathKey (f : ContentFile) : Option String :=
  let ps := f.relativePath
  if ps.length > 1 then
    let fullPath := String.intercalate "/" ps.dropLast
    if fullPath ≠ "" then some fullPath else none
  else none

/-- The canonical grouping key assigned to a file by the Category Hierarchy
Assembler (`CategoryBuilder.buildSectionCategories` routing): `tutorials`
groups by the raw hierarchical directory path; every other section groups by
`trackSlugEN` (tracks files carrying one) or by the canonical slug with
English fallback. -/
def canonicalGroupKey (allFiles : List ContentFile) (f : ContentFile) :
    Option String :=
  if f.sectionName = "tutorials" then hierarchicalPathKey f
  else some
    (if f.sectionName = "tracks" && f.metadata.trackSlugEN ≠ "" then
      f.metadata.trackSlugEN
     else extractCanonicalSlugWithEnglishFallback f allFiles)

/-! ## Lemmas about the merge engine -/

/-- `assocGet` returns `none` exactly when the key is absent. -/
theorem assocGet_eq_none_iff (k : String) (acc : List (String × NavNode)) :
    assocGet k acc = none ↔ ∀ p ∈ acc, p.1 ≠ k := by
  induction acc with
  | nil => simp [assocGet]
  | cons p rest ih =>
    cases p with
    | mk k' v =>
      by_cases h : k' = k
      · subst h
        simp [assocGet]
      · simp [assocGet, h, ih]

/-- A successful `assocGet` returns a stored entry. -/
theorem assocGet_mem {k : String} {acc : List (String × NavNode)} {v : NavNode}
    (h : assocGet k acc = some v) : (k, v) ∈ acc := by
  induction acc with
  | nil => simp [assocGet] at h
  | cons p rest ih =>
    cases p with
    | mk k' v' =>
      by_cases hk : k' = k
      · subst hk
        simp [assocGet] at h
        simp [h]
      · simp [assocGet, hk] at h
        exact List.mem_cons_of_mem _ (ih h)

/-- `assocReplace` keeps the key sequence unchanged. -/
theorem assocReplace_map_fst (k : String) (v : NavNode)
    (acc : List (String × NavNode)) :
    (assocReplace k v acc).map Prod.fst = acc.map Prod.fst := by
  induction acc with
  | nil => rfl
  | cons p rest ih =>
    cases p with
    | mk k' v' =>
      by_cases hk : k' = k
      · simp [assocReplace, hk]
      · simp [assocReplace, hk, ih]

/-- Entries after `assocReplace` are either the new entry or old entries. -/
theorem assocReplace_mem {k : String} {v : NavNode}
    {acc : List (String × NavNode)} {p : String × NavNode}
    (h : p ∈ assocReplace k v acc) : p = (k, v) ∨ p ∈ acc := by
  induction acc with
  | nil => simp [assocReplace] at h
  | cons q rest ih =>
    cases q with
    | mk k' v' =>
      by_cases hk : k' = k
      · subst hk
        simp [assocReplace] at h
        rcases h with h | h
        · exact Or.inl (by simp [h])
        · exact Or.inr (List.mem_cons_of_mem _ h)
      · simp [assocReplace, hk] at h
        rcases h with h | h
        · exact Or.inr (by simp [h])
        · rcases ih h with h' | h'
          · exact Or.inl h'
          · exact Or.inr (List.mem_cons_of_mem _ h')

/-- Well-formedness of the `bySlug` accumulator: every entry is keyed by its
node's merge key, stores a category node, and keys are distinct. -/
def accWF (acc : List (String × NavNode)) : Prop :=
  (∀ p ∈ acc, p.1 = keyOf p.2 ∧ p.2.nodeType = .category) ∧
    (acc.map Prod.fst).Nodup

/-- Accessor computation for `NavNode.slug`. -/
theorem NavNode.slug_mk (n s : LocalizedString) (o : String) (t : NodeType)
    (c : List NavNode) (ord : Option Int) : (NavNode.mk n s o t c ord).slug = s := rfl

/-- Accessor computation for `NavNode.nodeType`. -/
theorem NavNode.nodeType_mk (n s : LocalizedString) (o : String) (t : NodeType)
    (c : List NavNode) (ord : Option Int) :
    (NavNode.mk n s o t c ord).nodeType = t := rfl

/-- Accessor computation for `NavNode.children`. -/
theorem NavNode.children_mk (n s : LocalizedString) (o : String) (t : NodeType)
    (c : List NavNode) (ord : Option Int) :
    (NavNode.mk n s o t c ord).children = c := rfl

/-- The merge key only depends on the slug. -/
theorem keyOf_eq_of_slug_eq {a b : NavNode} (h : a.slug = b.slug) :
    keyOf a = keyOf b := by
  simp [keyOf, h]

/-- The merged replacement node built inside `mergeIntoWith` keeps the slug
and type of the stored node, so the accumulator stays well formed — for any
child-merging function. -/
theorem mergeIntoWith_wf (g : List NavNode → List NavNode) :
    ∀ (l : List NavNode) acc, accWF acc → accWF (mergeIntoWith g l acc) := by
  intro l
  induction l with
  | nil => intro acc h; simpa [mergeIntoWith] using h
  | cons node rest ih =>
    intro acc h
    rw [mergeIntoWith]
    by_cases hty : node.nodeType = .category
    · simp only [hty, ne_eq, not_true_eq_false, if_false]
      cases hget : assocGet (keyOf node) acc with
      | none =>
        apply ih
        constructor
        · intro p hp
          rcases List.mem_append.mp hp with hp | hp
          · exact h.1 p hp
          · simp at hp
            subst hp
            exact ⟨rfl, hty⟩
        · rw [List.map_append]
          apply List.Nodup.append h.2 (by simp)
          intro a ha hb
          simp at hb
          subst hb
          have := (assocGet_eq_none_iff _ _).mp hget
          simp at ha
          obtain ⟨b, hab⟩ := ha
          exact this _ hab rfl
      | some existing =>
        apply ih
        have hmem := assocGet_mem hget
        have hwf := h.1 _ hmem
        simp only at hwf
        constructor
        · intro p hp
          rcases assocReplace_mem hp with hp | hp
          · subst hp
            refine ⟨?_, ?_⟩
            · exact hwf.1.trans (keyOf_eq_of_slug_eq rfl)
            · exact hwf.2
          · exact h.1 p hp
        · rw [assocReplace_map_fst]
          exact h.2
    · simp only [hty, ne_eq, not_false_eq_true, if_true]
      exact ih acc h

/-- At non-zero fuel, every node in the merge output is a category node. -/
theorem merge_succ_all_category (fuel : Nat) (l : List NavNode) :
    ∀ n ∈ mergeCategoryNodeListsFuel (fuel + 1) l, n.nodeType = .category := by
  intro n hn
  rw [mergeFuel_succ] at hn
  simp at hn
  obtain ⟨k, hk⟩ := hn
  exact ((mergeIntoWith_wf _ l [] (by simp [accWF])).1 (k, n) hk).2

/-- At non-zero fuel, the merge keys of the output nodes are distinct. -/
theorem merge_succ_keys_nodup (fuel : Nat) (l : List NavNode) :
    ((mergeCategoryNodeListsFuel (fuel + 1) l).map keyOf).Nodup := by
  rw [mergeFuel_succ]
  have hwf := mergeIntoWith_wf (mergeCategoryNodeListsFuel fuel) l [] (by simp [accWF])
  have hkeys : (mergeIntoWith (mergeCategoryNodeListsFuel fuel) l []).map Prod.fst =
      ((mergeIntoWith (mergeCategoryNodeListsFuel fuel) l []).map Prod.snd).map keyOf := by
    rw [List.map_map]
    apply List.map_congr_left
    intro p hp
    exact (hwf.1 p hp).1
  rw [← hkeys]
  exact hwf.2

/-- When every node is a category and all merge keys are distinct, the fold
of `mergeIntoWith` only appends fresh entries. -/
theorem mergeIntoWith_all_fresh (g : List NavNode → List NavNode) :
    ∀ (l : List NavNode) acc,
    (∀ n ∈ l, n.nodeType = .category) →
    ((acc.map Prod.fst) ++ l.map keyOf).Nodup →
    mergeIntoWith g l acc = acc ++ l.map (fun n => (keyOf n, n)) := by
  intro l
  induction l with
  | nil => intro acc _ _; simp [mergeIntoWith]
  | cons node rest ih =>
    intro acc hcat hnodup
    rw [mergeIntoWith]
    have hty : node.nodeType = .category := hcat node (by simp)
    simp only [hty, ne_eq, not_true_eq_false, if_false]
    have hfresh : assocGet (keyOf node) acc = none := by
      rw [assocGet_eq_none_iff]
      intro p hp hpk
      have hdisj := List.disjoint_of_nodup_append hnodup
      exact hdisj (hpk ▸ List.mem_map_of_mem Prod.fst hp) (by simp)
    rw [hfresh]
    have hrest := ih (acc ++ [(keyOf node, node)])
      (fun n hn => hcat n (List.mem_cons_of_mem _ hn))
      (by simpa using hnodup)
    rw [hrest]
    simp

/-- When every node is a category and all merge keys are distinct, one merge
pass returns its input unchanged. -/
theorem merge_succ_identity (fuel : Nat) (l : List NavNode)
    (hcat : ∀ n ∈ l, n.nodeType = .category)
    (hnodup : (l.map keyOf).Nodup) :
    mergeCategoryNodeListsFuel (fuel + 1) l = l := by
  rw [mergeFuel_succ]
  rw [mergeIntoWith_all_fresh _ l [] hcat (by simpa using hnodup)]
  simp only [List.nil_append, List.map_map]
  have hid : (Prod.snd ∘ fun n : NavNode => (keyOf n, n)) = id := rfl
  rw [hid, List.map_id]

/-- C2 **Merge idempotence**: applying the Category Merge Engine
(`mergeCategoryNodeLists`) a second time to an already-merged sibling list
yields the same list — same number of nodes, same localized names, same
children — for every input list of category nodes. -/
theorem c2_merge_idempotent (l : List NavNode) :
    mergeCategoryNodeLists (mergeCategoryNodeLists l) = mergeCategoryNodeLists l := by
  show mergeCategoryNodeListsFuel (NavNode.sizeList (mergeCategoryNodeLists l) + 1)
      (mergeCategoryNodeLists l) = mergeCategoryNodeLists l
  apply merge_succ_identity
  · show ∀ n ∈ mergeCategoryNodeListsFuel (NavNode.sizeList l + 1) l, _
    exact merge_succ_all_category _ l
  · exact merge_succ_keys_nodup _ l

/-! ## C7: category slug conflict resolution -/

/-- The conflict-resolution law in the spec's words: the final per-locale
category slug is the first non-colliding candidate among the base slug and
its once- and twice-`-category`-suffixed successors, or the thrice-suffixed
candidate after the three bounded retries.  (Stated from the spec for
comparison with the code's `resolveSlugConflict`.) -/
def specResolvedCategorySlug (taken : List String) (c0 : String) : String :=
  let c1 := c0 ++ "-category"
  let c2 := c1 ++ "-category"
  let c3 := c2 ++ "-category"
  match [c0, c1, c2].find? (fun c => !taken.contains c) with
  | some c => c
  | none => c3

/-- The unrolled retry loop agrees with the spec's description. -/
theorem resolveSlugConflict_eq_spec (taken : List String) (c0 : String) :
    resolveSlugConflict taken c0 = specResolvedCategorySlug taken c0 := by
  unfold resolveSlugConflict specResolvedCategorySlug
  by_cases h0 : c0 ∈ taken
  · by_cases h1 : c0 ++ "-category" ∈ taken
    · by_cases h2 : c0 ++ "-category" ++ "-category" ∈ taken
      · simp [h0, h1, h2, List.find?]
      · simp [h0, h1, h2, List.find?]
    · simp [h0, h1, List.find?]
  · simp [h0, List.find?]

/-- C7 **Category slug conflict resolution**: for every leaf category with
document children (`generateLocalizedCategorySlugs` with a file array) and
for each locale independently, the per-locale slug equals the spec's law: the
slugified localized name, retried with a literal `-category` suffix at most
3 times against the child document slugs already assigned for that locale,
keeping the first non-colliding candidate (or the thrice-suffixed candidate
after 3 iterations). -/
theorem c7_category_slug_conflict_resolution (name : LocalizedString)
    (files : List ContentFile) (loc : Lang) :
    (generateLocalizedCategorySlugs name (some files)).get loc =
      specResolvedCategorySlug (childDocSlugs loc files) (categoryBaseSlug name loc) := by
  cases loc <;>
    simp [generateLocalizedCategorySlugs, LocalizedString.get,
      resolveSlugConflict_eq_spec]

/-! ## C8: ordering of chronological (announcements) sections -/

/-- An announcements document node dated 2023-01-02 whose English title sorts
alphabetically first. -/
def annDocOlder : NavNode :=
  .mk ⟨"Alpha improvement", "Alpha improvement", "Alpha improvement"⟩
    ⟨"2023-01-02-alpha-improvement", "2023-01-02-alpha-improvement",
     "2023-01-02-alpha-improvement"⟩ "" .markdown [] none

/-- An announcements document node dated 2025-06-01 whose English title sorts
alphabetically last. -/
def annDocNewer : NavNode :=
  .mk ⟨"Beta launch", "Beta launch", "Beta launch"⟩
    ⟨"2025-06-01-beta-launch", "2025-06-01-beta-launch",
     "2025-06-01-beta-launch"⟩ "" .markdown [] none

/-- C8 **Chronological ordering — code_bug evidence**: `sortDocumentNodes`
for the `announcements` section takes the default branch and sorts the two
sibling announcement documents by English title ascending, placing the
2023-01-02 document before the 2025-06-01 document, even though the
2025-06-01 document carries the later `YYYY-MM-DD` prefix in its canonical
slug — no date-prefix extraction exists in the sort.  The repository's own
readme specifies "Month articles are ordered by the YYYY-MM-DD prefix in the
filename/slug (newest first)". -/
theorem c8_announcements_sorted_by_title_not_date :
    sortDocumentNodes "announcements" [annDocNewer, annDocOlder] =
        [annDocOlder, annDocNewer] ∧
      compareCharList (annDocOlder.slug.en.toList.take 10)
        (annDocNewer.slug.en.toList.take 10) = .lt := by
  constructor
  · rfl
  · rfl

/-! ## C1: canonicalization convergence -/

/-- A Spanish tutorials record filed under the folder `Pedidos`, sharing the
canonical key `orders-doc` with the English record below. -/
def esTutorialFile : ContentFile :=
  { path := "docs/es/tutorials/Pedidos/doc-es.md"
    relativePath := ["Pedidos", "doc-es.md"]
    language := .es
    sectionName := "tutorials"
    category := "Pedidos"
    subcategory := none
    fileName := "doc-es"
    metadata := ⟨"Pedidos", "orders-doc", "", "PUBLISHED", "", "es", none⟩
    content := "" }

/-- The English tutorials record for the same canonical document, filed under
the folder `Orders`. -/
def enTutorialFile : ContentFile :=
  { path := "docs/en/tutorials/Orders/doc-en.md"
    relativePath := ["Orders", "doc-en.md"]
    language := .en
    sectionName := "tutorials"
    category := "Orders"
    subcategory := none
    fileName := "doc-en"
    metadata := ⟨"Orders", "orders-doc", "", "PUBLISHED", "", "en", none⟩
    content := "" }

/-- C1 **counterexample**: two tutorials records in different languages that
describe the same category (an English variant sharing the canonical key
`slugEN` exists in the batch) receive *different* canonical grouping keys:
for the `tutorials` section the Category Hierarchy Assembler groups by the
raw localized directory path (`groupFilesByHierarchicalPath`), with no
synonym mapping, so `["Pedidos"]` (es) and `["Orders"]` (en) do not converge. -/
theorem c1_counterexample :
    esTutorialFile.language ≠ enTutorialFile.language ∧
      esTutorialFile.metadata.slugEN = enTutorialFile.metadata.slugEN ∧
      (∃ e ∈ [esTutorialFile, enTutorialFile], e.language = Lang.en ∧
        e.metadata.slugEN = esTutorialFile.metadata.slugEN) ∧
      canonicalGroupKey [esTutorialFile, enTutorialFile] esTutorialFile ≠
        canonicalGroupKey [esTutorialFile, enTutorialFile] enTutorialFile := by
  refine ⟨by decide, by decide, ⟨enTutorialFile, by decide, by decide, by decide⟩, ?_⟩
  decide

/-- C1 **amended**: for records grouped through the canonical-category
resolver with English fallback (`extractCanonicalSlugWithEnglishFallback`,
used for all flat sections), two records sharing the canonical key `slugEN`
resolve to identical canonical slugs whenever an English variant with that
key exists in the batch — the resolver derives both keys from the first such
English file's folder structure. -/
theorem c1_amended_flat_convergence (f1 f2 : ContentFile)
    (files : List ContentFile)
    (hlang : f1.language ≠ f2.language)
    (hslug : f1.metadata.slugEN = f2.metadata.slugEN)
    (hEn : ∃ e ∈ files, e.language = Lang.en ∧
      e.metadata.slugEN = f1.metadata.slugEN) :
    extractCanonicalSlugWithEnglishFallback f1 files =
      extractCanonicalSlugWithEnglishFallback f2 files := by
  unfold extractCanonicalSlugWithEnglishFallback
  rw [hslug]
  obtain ⟨e, hmem, hl, hs⟩ := hEn
  have hne : (files.filter
      (fun g => g.language = Lang.en && g.metadata.slugEN = f2.metadata.slugEN)) ≠ [] := by
    intro hnil
    have : e ∈ files.filter
        (fun g => g.language = Lang.en && g.metadata.slugEN = f2.metadata.slugEN) := by
      rw [List.mem_filter]
      exact ⟨hmem, by simp [hl, hslug ▸ hs]⟩
    rw [hnil] at this
    simp at this
  cases hh : (files.filter
      (fun g => g.language = Lang.en && g.metadata.slugEN = f2.metadata.slugEN)).head? with
  | none => exact absurd (List.head?_eq_none_iff.mp hh) hne
  | some e0 => simp [hh]

/-- A Spanish FAQ record (flat section) sharing `slugEN` with the English
record below. -/
def esFaqWitnessFile : ContentFile :=
  { path := "docs/es/faq/Facturacion/facturas.md"
    relativePath := ["Facturacion", "facturas.md"]
    language := .es
    sectionName := "faq"
    category := "Facturacion"
    subcategory := none
    fileName := "facturas"
    metadata := ⟨"Facturas", "invoices-doc", "", "PUBLISHED", "", "es", none⟩
    content := "" }

/-- The English FAQ record for the same canonical document. -/
def enFaqWitnessFile : ContentFile :=
  { path := "docs/en/faq/Billing/invoices.md"
    relativePath := ["Billing", "invoices.md"]
    language := .en
    sectionName := "faq"
    category := "Billing"
    subcategory := none
    fileName := "invoices"
    metadata := ⟨"Invoices", "invoices-doc", "", "PUBLISHED", "", "en", none⟩
    content := "" }

/-- Witness for the amended C1 theorem: a Spanish and an English FAQ record
sharing `slugEN` resolve identically (both to the English file's folder). -/
theorem c1_amended_flat_convergence_witness :
    (esFaqWitnessFile.language ≠ enFaqWitnessFile.language ∧
      esFaqWitnessFile.metadata.slugEN = enFaqWitnessFile.metadata.slugEN) ∧
    extractCanonicalSlugWithEnglishFallback esFaqWitnessFile
        [esFaqWitnessFile, enFaqWitnessFile] =
      extractCanonicalSlugWithEnglishFallback enFaqWitnessFile
        [esFaqWitnessFile, enFaqWitnessFile] :=
  ⟨⟨by decide, by decide⟩,
    c1_amended_flat_convergence esFaqWitnessFile enFaqWitnessFile
      [esFaqWitnessFile, enFaqWitnessFile] (by decide) (by decide)
      ⟨enFaqWitnessFile, by decide, by decide, by decide⟩⟩

/-! ## C5: representation of missing translations -/

/-- Reading the slot just written. -/
theorem LocalizedString.get_set_same (s : LocalizedString) (l : Lang) (v : String) :
    (s.set l v).get l = v := by
  cases l <;> rfl

/-- Reading another slot than the one written. -/
theorem LocalizedString.get_set_ne (s : LocalizedString) {l l' : Lang} (v : String)
    (h : l ≠ l') : (s.set l v).get l' = s.get l' := by
  cases l <;> cases l' <;> first | rfl | exact absurd rfl h

/-- `addLanguageVersion` only touches the slots of the file's own language. -/
theorem addLanguageVersion_preserves (d : CrossLanguageDocument)
    (f : ContentFile) {lang : Lang} (h : f.language ≠ lang) :
    (addLanguageVersion d f).title.get lang = d.title.get lang ∧
      (addLanguageVersion d f).slug.get lang = d.slug.get lang ∧
      (addLanguageVersion d f).fileFor lang = d.fileFor lang := by
  rcases hfl : f.language <;> rcases hlg : lang <;>
    first
      | exact absurd (hfl.trans hlg.symm) h
      | simp [addLanguageVersion, hfl, CrossLanguageDocument.setFile,
          CrossLanguageDocument.fileFor, LocalizedString.set, LocalizedString.get]

/-- After folding the language versions, a language with no record keeps its
initial empty title, empty slug and absent file reference. -/
theorem foldl_addLanguageVersion_missing (files : List ContentFile)
    {lang : Lang} (hno : ∀ f ∈ files, f.language ≠ lang) :
    ∀ d : CrossLanguageDocument,
      d.title.get lang = "" → d.slug.get lang = "" → d.fileFor lang = none →
      ((files.foldl addLanguageVersion d).title.get lang = "" ∧
        (files.foldl addLanguageVersion d).slug.get lang = "" ∧
        (files.foldl addLanguageVersion d).fileFor lang = none) := by
  induction files with
  | nil => intro d h1 h2 h3; exact ⟨h1, h2, h3⟩
  | cons f rest ih =>
    intro d h1 h2 h3
    have hf := hno f (by simp)
    have hp := addLanguageVersion_preserves d f hf
    exact ih (fun g hg => hno g (List.mem_cons_of_mem _ hg)) _
      (hp.1.trans h1) (hp.2.1.trans h2) (hp.2.2.trans h3)

/-- `fillTitleFor` only changes the `title` field, and only the slot `t`:
reading slot `l ≠ t` is unchanged. -/
theorem fillTitleFor_get_ne (fb : Lang) (d : CrossLanguageDocument)
    {t l : Lang} (h : t ≠ l) :
    (fillTitleFor fb d t).title.get l = d.title.get l := by
  unfold fillTitleFor
  split_ifs <;> simp [LocalizedString.get_set_ne _ _ h]

/-- The fallback language's own title value survives a `fillTitleFor` step. -/
theorem fillTitleFor_get_fb (fb : Lang) (d : CrossLanguageDocument) (t : Lang) :
    (fillTitleFor fb d t).title.get fb = d.title.get fb := by
  by_cases ht : t = fb
  · subst ht
    unfold fillTitleFor
    split_ifs with hempty
    · simp [LocalizedString.get_set_same, hempty]
    · rfl
  · exact fillTitleFor_get_ne fb d ht

/-- `fillTitleFor` at target `l` copies the fallback title into an empty slot. -/
theorem fillTitleFor_get_same (fb : Lang) (d : CrossLanguageDocument) (l : Lang)
    (h : d.title.get l = "") :
    (fillTitleFor fb d l).title.get l = d.title.get fb := by
  unfold fillTitleFor
  simp [h, LocalizedString.get_set_same]

/-- `fillSlugFor` and `fillCategoriesFor` do not change titles. -/
theorem fillSlugFor_title (d : CrossLanguageDocument) (t : Lang) :
    (fillSlugFor d t).title = d.title := by
  unfold fillSlugFor
  split_ifs <;> rfl

/-- `fillCategoriesFor` does not change titles. -/
theorem fillCategoriesFor_title (fb : Lang) (d : CrossLanguageDocument) (t : Lang) :
    (fillCategoriesFor fb d t).title = d.title := by
  unfold fillCategoriesFor
  split_ifs <;> rfl

/-- `fillTitleFor` does not change slugs. -/
theorem fillTitleFor_slug (fb : Lang) (d : CrossLanguageDocument) (t : Lang) :
    (fillTitleFor fb d t).slug = d.slug := by
  unfold fillTitleFor
  split_ifs <;> rfl

/-- `fillCategoriesFor` does not change slugs. -/
theorem fillCategoriesFor_slug (fb : Lang) (d : CrossLanguageDocument) (t : Lang) :
    (fillCategoriesFor fb d t).slug = d.slug := by
  unfold fillCategoriesFor
  split_ifs <;> rfl

/-- `fillSlugFor` keeps an empty slug slot empty (it only ever writes `''`). -/
theorem fillSlugFor_empty (d : CrossLanguageDocument) (t : Lang) {l : Lang}
    (h : d.slug.get l = "") : (fillSlugFor d t).slug.get l = "" := by
  unfold fillSlugFor
  by_cases ht : t = l
  · subst ht
    split_ifs <;> simp [LocalizedString.get_set_same, h]
  · split_ifs <;> simp [LocalizedString.get_set_ne _ _ ht, h]

/-- None of the fill steps changes the stored file references. -/
theorem fillFallbackFor_fileFor (fb : Lang) (d : CrossLanguageDocument)
    (t l : Lang) : (fillFallbackFor fb d t).fileFor l = d.fileFor l := by
  unfold fillFallbackFor fillCategoriesFor fillSlugFor fillTitleFor
  split_ifs <;> cases l <;> simp [CrossLanguageDocument.fileFor]

/-- A full fill step at another target does not change a language's title. -/
theorem fillFallbackFor_title_ne (fb : Lang) (d : CrossLanguageDocument)
    {t l : Lang} (h : t ≠ l) :
    (fillFallbackFor fb d t).title.get l = d.title.get l := by
  unfold fillFallbackFor
  rw [fillCategoriesFor_title, fillSlugFor_title, fillTitleFor_get_ne fb d h]

/-- A full fill step keeps the fallback language's title value. -/
theorem fillFallbackFor_title_fb (fb : Lang) (d : CrossLanguageDocument)
    (t : Lang) : (fillFallbackFor fb d t).title.get fb = d.title.get fb := by
  unfold fillFallbackFor
  rw [fillCategoriesFor_title, fillSlugFor_title, fillTitleFor_get_fb]

/-- A full fill step at target `l` copies the fallback title into an empty
title slot. -/
theorem fillFallbackFor_title_same (fb : Lang) (d : CrossLanguageDocument)
    (l : Lang) (h : d.title.get l = "") :
    (fillFallbackFor fb d l).title.get l = d.title.get fb := by
  unfold fillFallbackFor
  rw [fillCategoriesFor_title, fillSlugFor_title, fillTitleFor_get_same fb d l h]

/-- A full fill step keeps an empty slug slot empty. -/
theorem fillFallbackFor_slug_empty (fb : Lang) (d : CrossLanguageDocument)
    (t : Lang) {l : Lang} (h : d.slug.get l = "") :
    (fillFallbackFor fb d t).slug.get l = "" := by
  unfold fillFallbackFor
  rw [fillCategoriesFor_slug]
  exact fillSlugFor_empty _ t (by rw [fillTitleFor_slug]; exact h)

/-- The fill pass never changes the stored per-language file references, so
the fallback-language choice reads the same before and after filling. -/
theorem fillMissing_firstAvailable (languages : List Lang)
    (d : CrossLanguageDocument) :
    firstAvailableLang (fillMissingLanguageFallbacks languages d) =
      firstAvailableLang d := by
  have hfiles : ∀ (fb : Lang) (ls : List Lang) (e : CrossLanguageDocument),
      (ls.foldl (fillFallbackFor fb) e).fileEn = e.fileEn ∧
      (ls.foldl (fillFallbackFor fb) e).fileEs = e.fileEs ∧
      (ls.foldl (fillFallbackFor fb) e).filePt = e.filePt := by
    intro fb ls
    induction ls with
    | nil => intro e; exact ⟨rfl, rfl, rfl⟩
    | cons t rest ih =>
      intro e
      have hstep := fillFallbackFor_fileFor fb e t
      have h1 := ih (fillFallbackFor fb e t)
      exact ⟨h1.1.trans (hstep .en), h1.2.1.trans (hstep .es),
        h1.2.2.trans (hstep .pt)⟩
  simp only [fillMissingLanguageFallbacks]
  cases hfa : firstAvailableLang d with
  | none => exact hfa
  | some fb =>
    have h := hfiles fb languages d
    show firstAvailableLang (List.foldl (fillFallbackFor fb) d languages) = _
    unfold firstAvailableLang
    rw [h.1, h.2.1, h.2.2]
    exact hfa

/-- Core of the C5 analysis, over one multilingual record `d` whose slot for
`lang` is still untouched: after the fallback fill with the default language
list, the slug slot is the explicit empty string, and the title slot equals
the fallback language's title. -/
theorem fillMissing_missing_lang (d : CrossLanguageDocument) (lang : Lang)
    (htitle : d.title.get lang = "") (hslug : d.slug.get lang = "") :
    (fillMissingLanguageFallbacks defaultLanguages d).slug.get lang = "" ∧
    ∀ fb, firstAvailableLang d = some fb →
      (fillMissingLanguageFallbacks defaultLanguages d).title.get lang =
        (fillMissingLanguageFallbacks defaultLanguages d).title.get fb := by
  simp only [fillMissingLanguageFallbacks]
  cases hfa : firstAvailableLang d with
  | none =>
    refine ⟨hslug, ?_⟩
    intro fb hfb
    exact absurd hfb (by simp)
  | some fb0 =>
    have hfold : List.foldl (fillFallbackFor fb0) d defaultLanguages =
        fillFallbackFor fb0 (fillFallbackFor fb0 (fillFallbackFor fb0 d .en) .es) .pt := by
      simp only [defaultLanguages, List.foldl_cons, List.foldl_nil]
    have hmatch : (match some fb0 with
        | none => d
        | some fb => List.foldl (fillFallbackFor fb) d defaultLanguages) =
        List.foldl (fillFallbackFor fb0) d defaultLanguages := rfl
    rw [hmatch, hfold]
    constructor
    · exact fillFallbackFor_slug_empty _ _ _
        (fillFallbackFor_slug_empty _ _ _
          (fillFallbackFor_slug_empty _ _ _ hslug))
    · intro fb hfb
      have hfb0 : fb0 = fb := by injection hfb
      subst hfb0
      have hrhs : (fillFallbackFor fb0 (fillFallbackFor fb0
          (fillFallbackFor fb0 d .en) .es) .pt).title.get fb0 =
          d.title.get fb0 := by
        rw [fillFallbackFor_title_fb, fillFallbackFor_title_fb,
          fillFallbackFor_title_fb]
      rw [hrhs]
      cases lang with
      | en =>
        rw [fillFallbackFor_title_ne fb0 _ (by decide : Lang.pt ≠ Lang.en),
          fillFallbackFor_title_ne fb0 _ (by decide : Lang.es ≠ Lang.en),
          fillFallbackFor_title_same fb0 d .en htitle]
      | es =>
        rw [fillFallbackFor_title_ne fb0 _ (by decide : Lang.pt ≠ Lang.es),
          fillFallbackFor_title_same fb0 _ .es
            (by rw [fillFallbackFor_title_ne fb0 _
              (by decide : Lang.en ≠ Lang.es)]; exact htitle),
          fillFallbackFor_title_fb]
      | pt =>
        rw [fillFallbackFor_title_same fb0 _ .pt
            (by rw [fillFallbackFor_title_ne fb0 _
                (by decide : Lang.es ≠ Lang.pt),
              fillFallbackFor_title_ne fb0 _
                (by decide : Lang.en ≠ Lang.pt)]; exact htitle),
          fillFallbackFor_title_fb, fillFallbackFor_title_fb]

/-- C5 **amended** (Missing-translation representation): when a document has
no ContentRecord for some language, that language's `localizedSlug` slot in
the linked `CrossLanguageDocument` is the explicit empty string, never copied
from another language; the `localizedTitle` slot, however, **is** filled by
copying the fallback language's title (English first, then Spanish, then
Portuguese), whenever any language version exists.  (Run with the generator's
default language list.) -/
theorem c5_amended_missing_translation (slugEN : String)
    (files : List ContentFile) (lang : Lang)
    (hno : ∀ f ∈ files, f.language ≠ lang) :
    (createCrossLanguageDocument defaultLanguages slugEN files).slug.get lang = "" ∧
    ∀ fb, firstAvailableLang
        (createCrossLanguageDocument defaultLanguages slugEN files) = some fb →
      (createCrossLanguageDocument defaultLanguages slugEN files).title.get lang =
        (createCrossLanguageDocument defaultLanguages slugEN files).title.get fb := by
  have hinit : (LocalizedString.empty.get lang = "") := by cases lang <;> rfl
  have hinitFile :
      (CrossLanguageDocument.fileFor ⟨slugEN, LocalizedString.empty,
        LocalizedString.empty, LocalizedString.empty, none, none, none⟩ lang)
        = none := by
    cases lang <;> rfl
  have h0 := foldl_addLanguageVersion_missing files hno
    ⟨slugEN, LocalizedString.empty, LocalizedString.empty, LocalizedString.empty,
      none, none, none⟩ hinit hinit hinitFile
  have hmain := fillMissing_missing_lang
    (files.foldl addLanguageVersion
      ⟨slugEN, LocalizedString.empty, LocalizedString.empty, LocalizedString.empty,
        none, none, none⟩) lang h0.1 h0.2.1
  refine ⟨hmain.1, ?_⟩
  intro fb hfb
  apply hmain.2 fb
  have hre : createCrossLanguageDocument defaultLanguages slugEN files =
      fillMissingLanguageFallbacks defaultLanguages
        (files.foldl addLanguageVersion
          ⟨slugEN, LocalizedString.empty, LocalizedString.empty,
            LocalizedString.empty, none, none, none⟩) := rfl
  rw [hre, fillMissing_firstAvailable] at hfb
  exact hfb

/-- An English-only record: no Spanish or Portuguese ContentRecord exists for
the canonical key `orders-doc`. -/
def enOnlyOrdersFile : ContentFile :=
  { path := "docs/en/tutorials/Orders/orders.md"
    relativePath := ["Orders", "orders.md"]
    language := .en
    sectionName := "tutorials"
    category := "Orders"
    subcategory := none
    fileName := "orders"
    metadata := ⟨"Orders", "orders-doc", "", "PUBLISHED", "", "en", none⟩
    content := "" }

/-- C5 **counterexample**: for a document with no Spanish ContentRecord, the
Spanish `localizedTitle` slot of the linked record — and of the resulting
DocumentNode — is **not** the explicit empty string: it is filled by copying
the English title `"Orders"`.  (Only the slug slot stays empty.)  This
refutes the claim that an absent language's `localizedTitle` slot remains an
explicit empty string and is never copied from another language. -/
theorem c5_counterexample :
    (createCrossLanguageDocument defaultLanguages "orders-doc"
        [enOnlyOrdersFile]).title.get .es = "Orders" ∧
      (createCrossLanguageDocument defaultLanguages "orders-doc"
        [enOnlyOrdersFile]).slug.get .es = "" ∧
      (buildDocumentNode defaultOptions
          (buildCrossLanguageMap defaultLanguages [enOnlyOrdersFile])
          enOnlyOrdersFile).name.get .es = "Orders" ∧
      ("Orders" : String) ≠ "" := by
  refine ⟨rfl, rfl, rfl, ?_⟩
  decide

/-- Witness for the amended C5 theorem at a concrete input: the English-only
document gets an empty Spanish slug slot and its Spanish title slot equals
the English (fallback) title. -/
theorem c5_amended_missing_translation_witness :
    (∀ f ∈ [enOnlyOrdersFile], f.language ≠ Lang.es) ∧
      (createCrossLanguageDocument defaultLanguages "orders-doc"
        [enOnlyOrdersFile]).slug.get .es = "" ∧
      (createCrossLanguageDocument defaultLanguages "orders-doc"
          [enOnlyOrdersFile]).title.get .es =
        (createCrossLanguageDocument defaultLanguages "orders-doc"
          [enOnlyOrdersFile]).title.get .en :=
  have h := c5_amended_missing_translation "orders-doc" [enOnlyOrdersFile] .es
    (by decide)
  ⟨by decide, h.1, h.2 .en rfl⟩

/-! ## C6: slug-disagreement policy -/

/-- A record whose frontmatter `legacySlug` (`old-slug`) disagrees with the
slug derived from its file name stem (`new-doc`). -/
def legacyMismatchFile : ContentFile :=
  { path := "docs/en/tutorials/X/new-doc.md"
    relativePath := ["X", "new-doc.md"]
    language := .en
    sectionName := "tutorials"
    category := "X"
    subcategory := none
    fileName := "new-doc"
    metadata := ⟨"Title", "doc-1", "old-slug", "PUBLISHED", "", "en", none⟩
    content := "" }

/-- C6 **counterexample**: for a record whose `legacySlug` differs from the
filename-derived slug, the DocumentNode built through the cross-language map
carries `old-slug` — the `legacySlug` — in its language slot, not the
filename-derived slug `new-doc`: the linker's `createCrossLanguageDocument`
prefers `legacySlug`, and `buildDocumentNode` copies the linker's slugs
whenever the document is in the cross-language map.  This refutes the claim
that the document's assigned slug is the filename-derived slug. -/
theorem c6_counterexample :
    getDocumentSlug legacyMismatchFile = "new-doc" ∧
      legacyMismatchFile.metadata.legacySlug = "old-slug" ∧
      (buildDocumentNode defaultOptions
          (buildCrossLanguageMap defaultLanguages [legacyMismatchFile])
          legacyMismatchFile).slug.get .en = "old-slug" ∧
      ("old-slug" : String) ≠ "new-doc" := by
  refine ⟨rfl, rfl, rfl, ?_⟩
  decide

/-- A fill step never changes a non-empty slug slot (the fill only ever
writes into empty slots). -/
theorem fillFallbackFor_slug_nonempty (fb : Lang) (d : CrossLanguageDocument)
    (t : Lang) {l : Lang} (h : d.slug.get l ≠ "") :
    (fillFallbackFor fb d t).slug.get l = d.slug.get l := by
  have hslug : (fillSlugFor (fillTitleFor fb d t) t).slug =
      if d.slug.get t = "" then d.slug.set t "" else d.slug := by
    unfold fillSlugFor
    rw [fillTitleFor_slug]
    split_ifs
    · rfl
    · exact fillTitleFor_slug fb d t
  unfold fillFallbackFor
  rw [fillCategoriesFor_slug, hslug]
  split_ifs with hg
  · by_cases ht : t = l
    · subst ht
      exact absurd hg h
    · exact LocalizedString.get_set_ne _ _ ht
  · rfl

/-- C6 **amended** (Slug-disagreement policy): for every ContentRecord whose
frontmatter `legacySlug` is present and differs from the filename-derived
slug, the slug computed by the transformer's `getDocumentSlug` is the
filename-derived slug and the `SLUG_MISMATCH` diagnostic fires; the
per-language slug stored by the cross-language linker, however, is the
`legacySlug`, and it is the linker's slug that the DocumentNode carries when
the document appears in the cross-language map (see `c6_counterexample`). -/
theorem c6_amended_slug_disagreement (f : ContentFile)
    (hpresent : f.metadata.legacySlug ≠ "")
    (hdiff : f.metadata.legacySlug ≠ generateSlugFromFilename f.fileName) :
    getDocumentSlug f = generateSlugFromFilename f.fileName ∧
      getDocumentSlugWarns f = true ∧
      (createCrossLanguageDocument defaultLanguages f.metadata.slugEN
        [f]).slug.get f.language = f.metadata.legacySlug := by
  refine ⟨rfl, ?_, ?_⟩
  · unfold getDocumentSlugWarns
    simp [hpresent, hdiff]
  · simp only [createCrossLanguageDocument, List.foldl_cons, List.foldl_nil]
    have hset : (addLanguageVersion ⟨f.metadata.slugEN, LocalizedString.empty,
        LocalizedString.empty, LocalizedString.empty, none, none, none⟩ f).slug.get
          f.language = f.metadata.legacySlug := by
      unfold addLanguageVersion
      simp only [hpresent, ne_eq, not_false_eq_true, if_true]
      exact LocalizedString.get_set_same _ _ _
    generalize hD : addLanguageVersion ⟨f.metadata.slugEN, LocalizedString.empty,
        LocalizedString.empty, LocalizedString.empty, none, none, none⟩ f = D at hset ⊢
    have h1 : D.slug.get f.language ≠ "" := by rw [hset]; exact hpresent
    simp only [fillMissingLanguageFallbacks]
    cases hfa : firstAvailableLang D with
    | none => exact hset
    | some fb =>
      have hmatch : (match some fb with
          | none => D
          | some fb => List.foldl (fillFallbackFor fb) D defaultLanguages) =
          List.foldl (fillFallbackFor fb) D defaultLanguages := rfl
      have hfold : List.foldl (fillFallbackFor fb) D defaultLanguages =
          fillFallbackFor fb (fillFallbackFor fb (fillFallbackFor fb D .en) .es) .pt := by
        simp only [defaultLanguages, List.foldl_cons, List.foldl_nil]
      rw [hmatch, hfold]
      have e1 := fillFallbackFor_slug_nonempty fb D .en h1
      have h2 : (fillFallbackFor fb D .en).slug.get f.language ≠ "" := by
        rw [e1]
        exact h1
      have e2 := fillFallbackFor_slug_nonempty fb (fillFallbackFor fb D .en) .es h2
      have h3 : (fillFallbackFor fb (fillFallbackFor fb D .en) .es).slug.get
          f.language ≠ "" := by
        rw [e2]
        exact h2
      have e3 := fillFallbackFor_slug_nonempty fb
        (fillFallbackFor fb (fillFallbackFor fb D .en) .es) .pt h3
      rw [e3, e2, e1, hset]

/-- Witness for the amended C6 theorem at the mismatching record. -/
theorem c6_amended_slug_disagreement_witness :
    (legacyMismatchFile.metadata.legacySlug ≠ "" ∧
      legacyMismatchFile.metadata.legacySlug ≠
        generateSlugFromFilename legacyMismatchFile.fileName) ∧
    getDocumentSlug legacyMismatchFile =
        generateSlugFromFilename legacyMismatchFile.fileName ∧
      getDocumentSlugWarns legacyMismatchFile = true ∧
      (createCrossLanguageDocument defaultLanguages
          legacyMismatchFile.metadata.slugEN
        [legacyMismatchFile]).slug.get legacyMismatchFile.language = "old-slug" :=
  ⟨⟨by decide, by decide⟩,
    c6_amended_slug_disagreement legacyMismatchFile (by decide) (by decide)⟩

/-! ## C9 and C10: scanner-level filtering -/

/-- Scanning distributes over list concatenation: every record that parses is
kept, independently of what surrounds it. -/
theorem scanRecords_append
    (xs ys : List (Lang × String × RawFile)) :
    (scanRecords (xs ++ ys)).1 =
      (scanRecords xs).1 ++ (scanRecords ys).1 := by
  induction xs with
  | nil => simp [scanRecords]
  | cons e rest ih =>
    obtain ⟨lang, sec, raw⟩ := e
    simp only [List.cons_append, scanRecords]
    cases (parseMarkdownFile lang sec raw).1 with
    | none => simpa using ih
    | some cf => simpa using ih

/-- C9 **Input-defect handling**: a ContentRecord whose frontmatter lacks a
title or lacks a canonical key (`slugEN`) is excluded from the record list
with a warning diagnostic, and the exclusion never fails the run — the
records scanned before and after it are all still produced. -/
theorem c9_input_defects_dropped
    (lang : Lang) (sec : String) (bad : RawFile)
    (hbad : bad.fm.title = "" ∨ bad.fm.slugEN = "")
    (xs ys : List (Lang × String × RawFile)) :
    (parseMarkdownFile lang sec bad).1 = none ∧
      (parseMarkdownFile lang sec bad).2 =
        [Diag.missingFields bad.filePath] ∧
      (scanRecords (xs ++ (lang, sec, bad) :: ys)).1 =
        (scanRecords xs).1 ++ (scanRecords ys).1 := by
  have hparse : parseMarkdownFile lang sec bad =
      (none, [Diag.missingFields bad.filePath]) := by
    unfold parseMarkdownFile
    rcases hbad with h | h <;> simp [h]
  refine ⟨by rw [hparse], by rw [hparse], ?_⟩
  rw [scanRecords_append]
  simp only [scanRecords, hparse]

/-- A healthy raw file: full frontmatter, no `status` field. -/
def goodRawFile : RawFile :=
  { filePath := "docs/en/tutorials/A/good.md"
    relParts := ["A", "good.md"]
    baseName := "good"
    fm := ⟨"Good", "good-doc", "", "", "", "", none⟩
    body := "" }

/-- A defective raw file: a title but no canonical key (`slugEN`). -/
def badRawFile : RawFile :=
  { filePath := "docs/en/tutorials/A/bad.md"
    relParts := ["A", "bad.md"]
    baseName := "bad"
    fm := ⟨"Bad", "", "", "", "", "", none⟩
    body := "" }

/-- A raw file whose frontmatter `status` is `DRAFT` (not `PUBLISHED`). -/
def draftRawFile : RawFile :=
  { filePath := "docs/en/tutorials/A/draft.md"
    relParts := ["A", "draft.md"]
    baseName := "draft"
    fm := ⟨"Draft", "draft-doc", "", "DRAFT", "", "", none⟩
    body := "" }

/-- Witness for C9: a record with a title but no `slugEN`, scanned between
two healthy records, is dropped with a warning while both neighbours are
kept. -/
theorem c9_input_defects_dropped_witness :
    (badRawFile.fm.title = "" ∨ badRawFile.fm.slugEN = "") ∧
      (parseMarkdownFile .en "tutorials" badRawFile).1 = none ∧
      (parseMarkdownFile .en "tutorials" badRawFile).2 =
        [Diag.missingFields badRawFile.filePath] ∧
      (scanRecords [(.en, "tutorials", goodRawFile),
          (.en, "tutorials", badRawFile), (.es, "tutorials", goodRawFile)]).1 =
        (scanRecords [(.en, "tutorials", goodRawFile)]).1 ++
          (scanRecords [(.es, "tutorials", goodRawFile)]).1 :=
  have h := c9_input_defects_dropped .en "tutorials" badRawFile
    (Or.inr rfl) [(.en, "tutorials", goodRawFile)] [(.es, "tutorials", goodRawFile)]
  ⟨Or.inr rfl, h.1, h.2.1, h.2.2⟩

/-- C10 **Implicit publication filter**: a ContentRecord whose frontmatter
`status` is present and differs from `'PUBLISHED'` is silently excluded (no
diagnostic), while a record with no `status` field at all (and the required
`title`/`slugEN`) is included. -/
theorem c10_publication_filter
    (lang : Lang) (sec : String) (raw : RawFile)
    (htitle : raw.fm.title ≠ "") (hslug : raw.fm.slugEN ≠ "") :
    (raw.fm.status ≠ "" → raw.fm.status ≠ "PUBLISHED" →
      (parseMarkdownFile lang sec raw).1 = none ∧
        (parseMarkdownFile lang sec raw).2 = []) ∧
    (raw.fm.status = "" → (parseMarkdownFile lang sec raw).1.isSome) := by
  constructor
  · intro hs hp
    unfold parseMarkdownFile
    simp [htitle, hslug, hs, hp]
  · intro hs
    unfold parseMarkdownFile
    simp [htitle, hslug, hs]

/-- Witness for C10, at two concrete records: a `DRAFT` record is silently
dropped; a record with no `status` field is kept. -/
theorem c10_publication_filter_witness :
    (draftRawFile.fm.title ≠ "" ∧ draftRawFile.fm.slugEN ≠ "" ∧
        draftRawFile.fm.status ≠ "" ∧ draftRawFile.fm.status ≠ "PUBLISHED") ∧
      (parseMarkdownFile .en "tutorials" draftRawFile).1 = none ∧
      (parseMarkdownFile .en "tutorials" draftRawFile).2 = [] ∧
    (goodRawFile.fm.title ≠ "" ∧ goodRawFile.fm.slugEN ≠ "" ∧
        goodRawFile.fm.status = "") ∧
      (parseMarkdownFile .en "tutorials" goodRawFile).1.isSome :=
  have hd := c10_publication_filter .en "tutorials" draftRawFile
    (by decide) (by decide)
  have hg := c10_publication_filter .en "tutorials" goodRawFile
    (by decide) (by decide)
  ⟨⟨by decide, by decide, by decide, by decide⟩,
    (hd.1 (by decide) (by decide)).1, (hd.1 (by decide) (by decide)).2,
    ⟨by decide, by decide, rfl⟩, hg.2 rfl⟩

/-! ## C3: per-locale slug uniqueness among siblings -/

/-- Inserting into the sorted prefix is a permutation. -/
theorem insertSorted_perm (le : NavNode → NavNode → Bool) (x : NavNode) :
    ∀ l : List NavNode, List.Perm (insertSorted le x l) (x :: l) := by
  intro l
  induction l with
  | nil => exact List.Perm.refl _
  | cons y ys ih =>
    rw [insertSorted]
    split_ifs
    · exact (ih.cons y).trans (List.Perm.swap x y ys)
    · exact List.Perm.refl _

/-- The stable sort permutes its input. -/
theorem stableSortBy_perm (le : NavNode → NavNode → Bool) (l : List NavNode) :
    List.Perm (stableSortBy le l) l := by
  have hgen : ∀ (xs acc : List NavNode),
      List.Perm (xs.foldl (fun acc x => insertSorted le x acc) acc) (acc ++ xs) := by
    intro xs
    induction xs with
    | nil => intro acc; simp
    | cons x rest ih =>
      intro acc
      have h1 : (x :: rest).foldl (fun acc x => insertSorted le x acc) acc
          = rest.foldl (fun acc x => insertSorted le x acc) (insertSorted le x acc) := rfl
      rw [h1]
      refine (ih _).trans ?_
      refine (List.Perm.append_right rest (insertSorted_perm le x acc)).trans ?_
      exact List.perm_middle.symm
  simpa using hgen l []

/-- `sortCategoryNodes` permutes its input (both branches are stable sorts). -/
theorem sortCategoryNodes_perm (sectionName : String) (l : List NavNode) :
    List.Perm (sortCategoryNodes sectionName l) l := by
  unfold sortCategoryNodes
  split_ifs <;> exact stableSortBy_perm _ l

/-- `sortDocumentNodes` permutes its input. -/
theorem sortDocumentNodes_perm (sectionName : String) (l : List NavNode) :
    List.Perm (sortDocumentNodes sectionName l) l := by
  unfold sortDocumentNodes
  split_ifs <;> exact stableSortBy_perm _ l

/-- The pairwise relation of the amended C3: two sibling categories never
carry the same non-empty English slug. -/
def distinctEnSlug (a b : NavNode) : Prop :=
  a.slug.en = "" ∨ b.slug.en = "" ∨ a.slug.en ≠ b.slug.en

/-- `distinctEnSlug` is symmetric. -/
theorem distinctEnSlug_symm : Symmetric distinctEnSlug := by
  intro a b h
  rcases h with h | h | h
  · exact Or.inr (Or.inl h)
  · exact Or.inl h
  · exact Or.inr (Or.inr (Ne.symm h))

/-- Distinct merge keys force distinct non-empty English slugs. -/
theorem distinctEnSlug_of_keyOf_ne {a b : NavNode} (h : keyOf a ≠ keyOf b) :
    distinctEnSlug a b := by
  unfold distinctEnSlug
  by_cases ha : a.slug.en = ""
  · exact Or.inl ha
  · by_cases hb : b.slug.en = ""
    · exact Or.inr (Or.inl hb)
    · refine Or.inr (Or.inr ?_)
      intro heq
      apply h
      unfold keyOf
      simp [ha, hb, heq]

/-- The merge output never repeats a non-empty English slug. -/
theorem merge_pairwise_distinctEnSlug (l : List NavNode) :
    (mergeCategoryNodeLists l).Pairwise distinctEnSlug := by
  have hnodup : ((mergeCategoryNodeLists l).map keyOf).Nodup :=
    merge_succ_keys_nodup (NavNode.sizeList l) l
  have hpw : (mergeCategoryNodeLists l).Pairwise (fun a b => keyOf a ≠ keyOf b) :=
    (List.pairwise_map).mp hnodup
  exact hpw.imp (fun h => distinctEnSlug_of_keyOf_ne h)

/-- C3 **amended** (Locale slug uniqueness among siblings): in every sibling
list produced by `buildCategoryNodes`, no two sibling category nodes carry
the same non-empty **English** slug.  (Uniqueness is only guaranteed for the
English locale: the merge and the slug generator never compare Spanish or
Portuguese slugs across siblings — see `c3_counterexample`.) -/
theorem c3_amended_english_slug_uniqueness (opts : GenOptions)
    (crossMap : List (String × CrossLanguageDocument)) (sectionName : String)
    (entries : List (String × CatInfo)) (st : GenState) :
    ((buildCategoryNodes opts crossMap sectionName entries st).1).Pairwise
      distinctEnSlug := by
  show (sortCategoryNodes sectionName
      (mergeCategoryNodeLists
        (((buildCategoryNodesRawWith
            (buildNavigationNodeFuel opts crossMap sectionName
              (CatInfo.depthEntries entries)) entries st).1).filter
          (fun n => !n.children.isEmpty)))).Pairwise distinctEnSlug
  exact ((sortCategoryNodes_perm sectionName _).pairwise_iff
    (fun h => distinctEnSlug_symm h)).mpr (merge_pairwise_distinctEnSlug _)

/-- Are all strings in the list pairwise distinct? -/
def allDistinctStr : List String → Bool
  | [] => true
  | s :: rest => !rest.contains s && allDistinctStr rest

/-- The claim's uniqueness property over one sibling list: for every locale,
no two sibling category nodes carry the same slug in that locale. -/
def siblingSlugsUniquePerLocale (l : List NavNode) : Bool :=
  [Lang.en, Lang.es, Lang.pt].all (fun loc =>
    allDistinctStr ((l.filter (fun n => n.nodeType = .category)).map
      (fun n => n.slug.get loc)))

/-- A Spanish-only record in the category folder `Billing`. -/
def billingEsFile : ContentFile :=
  { path := "docs/es/tutorials/Billing/pay.md"
    relativePath := ["Billing", "pay.md"]
    language := .es
    sectionName := "tutorials"
    category := "Billing"
    subcategory := none
    fileName := "pay"
    metadata := ⟨"Pagos", "pay-doc", "", "PUBLISHED", "", "es", none⟩
    content := "" }

/-- A Spanish-only record in the category folder `Invoices`. -/
def invoicesEsFile : ContentFile :=
  { path := "docs/es/tutorials/Invoices/inv.md"
    relativePath := ["Invoices", "inv.md"]
    language := .es
    sectionName := "tutorials"
    category := "Invoices"
    subcategory := none
    fileName := "inv"
    metadata := ⟨"Facturas", "inv-doc", "", "PUBLISHED", "", "es", none⟩
    content := "" }

/-- Two distinct sibling categories whose localized Spanish (and Portuguese)
names coincide (`Cobros`), with one document each. -/
def conflictingSiblingMap : List (String × CatInfo) :=
  [("tutorials/Billing",
    .docsNode ⟨"Billing", "Cobros", "Cobros"⟩ none [billingEsFile]),
   ("tutorials/Invoices",
    .docsNode ⟨"Invoices", "Cobros", "Cobros"⟩ none [invoicesEsFile])]

/-- C3 **counterexample**: the final sibling list built for two categories
named `Billing`/`Invoices` in English but both `Cobros` in Spanish carries
the Spanish slug `cobros` on **both** siblings — the merge engine only keys
on the English slug and the slug generator never compares sibling category
slugs — refuting per-locale uniqueness for the Spanish (and Portuguese)
locale. -/
theorem c3_counterexample :
    siblingSlugsUniquePerLocale
        (buildCategoryNodes defaultOptions [] "tutorials" conflictingSiblingMap
          ⟨[], []⟩).1 = false ∧
      ((buildCategoryNodes defaultOptions [] "tutorials" conflictingSiblingMap
          ⟨[], []⟩).1.map (fun n => (n.slug.en, n.slug.es))) =
        [("billing", "cobros"), ("invoices", "cobros")] := by
  constructor
  · decide
  · rfl

/-! ## C4: no orphan categories -/

mutual

/-- The no-orphan property of one node: a category node has at least one
child, recursively at every level (document nodes are unconstrained — they
always carry empty children lists). -/
def nodeOKb : NavNode → Bool
  | .mk _ _ _ ty children _ =>
    (ty ≠ .category || !children.isEmpty) && listOKb children

/-- The no-orphan property over a list of nodes. -/
def listOKb : List NavNode → Bool
  | [] => true
  | n :: rest => nodeOKb n && listOKb rest

end

/-- `listOKb` is the conjunction of `nodeOKb` over the members. -/
theorem listOKb_iff (l : List NavNode) :
    listOKb l = true ↔ ∀ n ∈ l, nodeOKb n = true := by
  induction l with
  | nil => simp [listOKb]
  | cons n rest ih => simp [listOKb, ih]

/-- Unfolding `nodeOKb` through the accessors. -/
theorem nodeOKb_def (n : NavNode) :
    nodeOKb n = ((n.nodeType ≠ .category || !n.children.isEmpty) &&
      listOKb n.children) := by
  cases n
  rfl

/-- `nodeOKb` ignores the name, slug, origin and order fields. -/
theorem nodeOKb_mk (name slug : LocalizedString) (origin : String)
    (ty : NodeType) (children : List NavNode) (order : Option Int) :
    nodeOKb (.mk name slug origin ty children order) =
      ((ty ≠ .category || !children.isEmpty) && listOKb children) := rfl

/-- The property is preserved under permutations. -/
theorem listOKb_of_perm {l l' : List NavNode} (hperm : List.Perm l l')
    (h : listOKb l = true) : listOKb l' = true := by
  rw [listOKb_iff] at h ⊢
  intro n hn
  exact h n (hperm.mem_iff.mpr hn)

/-- Members of a `dedupeDocsGo` result come from the accumulator or the
input. -/
theorem dedupeDocsGo_mem : ∀ (items : List NavNode) acc p,
    p ∈ dedupeDocsGo items acc → p ∈ acc ∨ p.2 ∈ items := by
  intro items
  induction items with
  | nil => intro acc p hp; exact Or.inl (by simpa [dedupeDocsGo] using hp)
  | cons it rest ih =>
    intro acc p hp
    rw [dedupeDocsGo] at hp
    by_cases hty : it.nodeType = .markdown
    · simp only [hty, if_true] at hp
      by_cases hk : acc.any (fun q => q.1 = keyOf it)
      · simp only [hk, if_true] at hp
        rcases ih acc p hp with h | h
        · exact Or.inl h
        · exact Or.inr (List.mem_cons_of_mem _ h)
      · simp only [hk, if_false] at hp
        rcases ih _ p hp with h | h
        · rcases List.mem_append.mp h with h | h
          · exact Or.inl h
          · simp at h
            subst h
            exact Or.inr (by simp)
        · exact Or.inr (List.mem_cons_of_mem _ h)
    · simp only [hty, if_false] at hp
      rcases ih acc p hp with h | h
      · exact Or.inl h
      · exact Or.inr (List.mem_cons_of_mem _ h)

/-- Members of `dedupeDocs` are members of its input. -/
theorem dedupeDocs_mem {items : List NavNode} {n : NavNode}
    (h : n ∈ dedupeDocs items) : n ∈ items := by
  unfold dedupeDocs at h
  simp at h
  obtain ⟨k, hk⟩ := h
  rcases dedupeDocsGo_mem items [] (k, n) hk with h | h
  · simp at h
  · exact h

/-- `dedupeDocsGo` never shrinks the accumulator. -/
theorem dedupeDocsGo_length : ∀ (items : List NavNode) acc,
    acc.length ≤ (dedupeDocsGo items acc).length := by
  intro items
  induction items with
  | nil => intro acc; simp [dedupeDocsGo]
  | cons it rest ih =>
    intro acc
    rw [dedupeDocsGo]
    by_cases hty : it.nodeType = .markdown
    · simp only [hty, if_true]
      by_cases hk : acc.any (fun q => q.1 = keyOf it)
      · simp only [hk, if_true]
        exact ih acc
      · simp only [hk, if_false]
        calc acc.length ≤ (acc ++ [(keyOf it, it)]).length := by simp
          _ ≤ _ := ih _
    · simp only [hty, if_false]
      exact ih acc

/-- A non-empty all-markdown list dedupes to a non-empty list. -/
theorem dedupeDocs_ne_nil {items : List NavNode}
    (hmd : ∀ n ∈ items, n.nodeType = .markdown) (hne : items ≠ []) :
    dedupeDocs items ≠ [] := by
  cases items with
  | nil => exact absurd rfl hne
  | cons it rest =>
    unfold dedupeDocs
    rw [dedupeDocsGo]
    have hty : it.nodeType = .markdown := hmd it (by simp)
    simp only [hty, if_true]
    have : ([] : List (String × NavNode)).any (fun q => q.1 = keyOf it) = false := rfl
    rw [this]
    simp only [Bool.false_eq_true, if_false, List.nil_append]
    intro hcontra
    have hlen := dedupeDocsGo_length rest [(keyOf it, it)]
    rw [List.map_eq_nil_iff.mp hcontra] at hlen
    simp at hlen

/-- `assocReplace` keeps the length. -/
theorem assocReplace_length (k : String) (v : NavNode)
    (acc : List (String × NavNode)) :
    (assocReplace k v acc).length = acc.length := by
  induction acc with
  | nil => rfl
  | cons p rest ih =>
    cases p with
    | mk k' v' =>
      by_cases hk : k' = k <;> simp [assocReplace, hk, ih]

/-- `mergeIntoWith` never shrinks the accumulator. -/
theorem mergeIntoWith_length (g : List NavNode → List NavNode) :
    ∀ (l : List NavNode) acc, acc.length ≤ (mergeIntoWith g l acc).length := by
  intro l
  induction l with
  | nil => intro acc; simp [mergeIntoWith]
  | cons node rest ih =>
    intro acc
    rw [mergeIntoWith]
    by_cases hty : node.nodeType = .category
    · simp only [hty, ne_eq, not_true_eq_false, if_false]
      cases hget : assocGet (keyOf node) acc with
      | none =>
        calc acc.length ≤ (acc ++ [(keyOf node, node)]).length := by simp
          _ ≤ _ := ih _
      | some existing =>
        calc acc.length = (assocReplace (keyOf node) _ acc).length :=
              (assocReplace_length _ _ _).symm
          _ ≤ _ := ih _
    · simp only [hty, ne_eq, not_false_eq_true, if_true]
      exact ih acc

/-- Merging a non-empty all-category list yields a non-empty list, at any
fuel. -/
theorem merge_ne_nil : ∀ (fuel : Nat) (l : List NavNode),
    (∀ n ∈ l, n.nodeType = .category) → l ≠ [] →
    mergeCategoryNodeListsFuel fuel l ≠ [] := by
  intro fuel
  cases fuel with
  | zero => intro l _ hne; exact hne
  | succ f =>
    intro l hcat hne
    rw [mergeFuel_succ]
    cases l with
    | nil => exact absurd rfl hne
    | cons node rest =>
      rw [mergeIntoWith]
      have hty : node.nodeType = .category := hcat node (by simp)
      simp only [hty, ne_eq, not_true_eq_false, if_false]
      have hget : assocGet (keyOf node) [] = none := rfl
      rw [hget]
      intro hcontra
      have hred : (mergeIntoWith (mergeCategoryNodeListsFuel f) rest
          ([] ++ [(keyOf node, node)])).map Prod.snd = [] := hcontra
      have hlen := mergeIntoWith_length (mergeCategoryNodeListsFuel f) rest
        ([] ++ [(keyOf node, node)])
      rw [List.map_eq_nil_iff.mp hred] at hlen
      simp at hlen

/-- The node built in the merge branch of `mergeIntoWith` keeps the no-orphan
property: its children are the recursively merged category children plus the
deduplicated document children of two nodes that satisfied it. -/
theorem mergedNode_ok (g : List NavNode → List NavNode)
    (hg : ∀ l, listOKb l = true → listOKb (g l) = true)
    (hgne : ∀ l, (∀ n ∈ l, n.nodeType = .category) → l ≠ [] → g l ≠ [])
    (existing node : NavNode)
    (hexOK : nodeOKb existing = true) (hnodeOK : nodeOKb node = true) :
    nodeOKb (NavNode.mk (mergeNames existing.name node.name) existing.slug
      existing.origin existing.nodeType
      (g ((existing.children ++ node.children).filter
            (fun ch => ch.nodeType = .category)) ++
        dedupeDocs ((existing.children ++ node.children).filter
          (fun ch => ch.nodeType = .markdown)))
      existing.order) = true := by
  have hex := (Bool.and_eq_true _ _).mp ((nodeOKb_def existing) ▸ hexOK)
  have hnd := (Bool.and_eq_true _ _).mp ((nodeOKb_def node) ▸ hnodeOK)
  have hmergedOK : ∀ n ∈ existing.children ++ node.children, nodeOKb n = true := by
    intro n hn
    rcases List.mem_append.mp hn with hn | hn
    · exact (listOKb_iff _).mp hex.2 n hn
    · exact (listOKb_iff _).mp hnd.2 n hn
  have hcatOK : listOKb ((existing.children ++ node.children).filter
      (fun ch => ch.nodeType = .category)) = true := by
    rw [listOKb_iff]
    intro n hn
    exact hmergedOK n (List.mem_filter.mp hn).1
  have hdocMd : ∀ n ∈ (existing.children ++ node.children).filter
      (fun ch => ch.nodeType = .markdown), n.nodeType = .markdown := by
    intro n hn
    exact of_decide_eq_true (List.mem_filter.mp hn).2
  rw [nodeOKb_mk]
  apply (Bool.and_eq_true _ _).mpr
  constructor
  · by_cases hcase : existing.nodeType = NodeType.category
    · apply Bool.or_eq_true_iff.mpr
      right
      have hchne : existing.children ≠ [] := by
        have h1 := hex.1
        rw [hcase] at h1
        simp at h1
        exact List.ne_nil_of_length_pos (by
          cases hc : existing.children with
          | nil => rw [hc] at h1; simp at h1
          | cons a l => simp)
      have hmergedne : existing.children ++ node.children ≠ [] := by
        intro hh
        exact hchne (List.append_eq_nil.mp hh).1
      by_cases hcat : (existing.children ++ node.children).filter
          (fun ch => ch.nodeType = .category) = []
      · have hdocne : (existing.children ++ node.children).filter
            (fun ch => ch.nodeType = .markdown) ≠ [] := by
          cases hm : existing.children ++ node.children with
          | nil => exact absurd hm hmergedne
          | cons m rest =>
            intro hnil
            cases hmty : m.nodeType with
            | category =>
              have : m ∈ (existing.children ++ node.children).filter
                  (fun ch => ch.nodeType = .category) := by
                rw [hm]
                exact List.mem_filter.mpr ⟨by simp, by simp [hmty]⟩
              rw [hcat] at this
              simp at this
            | markdown =>
              have : m ∈ (existing.children ++ node.children).filter
                  (fun ch => ch.nodeType = .markdown) := by
                rw [hm]
                exact List.mem_filter.mpr ⟨by simp, by simp [hmty]⟩
              rw [hm, hnil] at this
              simp at this
        have hded := dedupeDocs_ne_nil hdocMd hdocne
        cases hd : dedupeDocs ((existing.children ++ node.children).filter
            (fun ch => ch.nodeType = .markdown)) with
        | nil => exact absurd hd hded
        | cons d rest => simp
      · have hcatcat : ∀ n ∈ (existing.children ++ node.children).filter
            (fun ch => ch.nodeType = .category), n.nodeType = .category := by
          intro n hn
          exact of_decide_eq_true (List.mem_filter.mp hn).2
        have hgres := hgne _ hcatcat hcat
        cases hg' : g ((existing.children ++ node.children).filter
            (fun ch => ch.nodeType = .category)) with
        | nil => exact absurd hg' hgres
        | cons x rest => simp
    · apply Bool.or_eq_true_iff.mpr
      left
      simp [hcase]
  · rw [listOKb_iff]
    intro n hn
    rcases List.mem_append.mp hn with hn | hn
    · exact (listOKb_iff _).mp (hg _ hcatOK) n hn
    · exact hmergedOK n (List.mem_filter.mp (dedupeDocs_mem hn)).1

/-- One `mergeIntoWith` pass preserves the no-orphan property, given that the
child-merging function preserves it and maps non-empty all-category lists to
non-empty lists. -/
theorem mergeIntoWith_ok (g : List NavNode → List NavNode)
    (hg : ∀ l, listOKb l = true → listOKb (g l) = true)
    (hgne : ∀ l, (∀ n ∈ l, n.nodeType = .category) → l ≠ [] → g l ≠ []) :
    ∀ (l : List NavNode) acc, listOKb (acc.map Prod.snd) = true →
      listOKb l = true →
      listOKb ((mergeIntoWith g l acc).map Prod.snd) = true := by
  intro l
  induction l with
  | nil => intro acc hacc _; simpa [mergeIntoWith] using hacc
  | cons node rest ih =>
    intro acc hacc hl
    have hnode : nodeOKb node = true := by
      rw [listOKb_iff] at hl
      exact hl node (by simp)
    have hrest : listOKb rest = true := by
      rw [listOKb_iff] at hl ⊢
      intro n hn
      exact hl n (List.mem_cons_of_mem _ hn)
    rw [mergeIntoWith]
    by_cases hty : node.nodeType = .category
    · simp only [hty, ne_eq, not_true_eq_false, if_false]
      cases hget : assocGet (keyOf node) acc with
      | none =>
        apply ih _ _ hrest
        rw [listOKb_iff] at hacc ⊢
        intro n hn
        simp only [List.map_append] at hn
        rcases List.mem_append.mp hn with hn | hn
        · exact hacc n hn
        · simp at hn
          subst hn
          exact hnode
      | some existing =>
        have hexOK : nodeOKb existing = true := by
          rw [listOKb_iff] at hacc
          exact hacc existing (List.mem_map_of_mem Prod.snd (assocGet_mem hget))
        apply ih _ _ hrest
        rw [listOKb_iff]
        intro n hn
        obtain ⟨p, hp, hpn⟩ := List.mem_map.mp hn
        rcases assocReplace_mem hp with h | h
        · rw [← hpn, h]
          exact mergedNode_ok g hg hgne existing node hexOK hnode
        · rw [← hpn]
          rw [listOKb_iff] at hacc
          exact hacc p.2 (List.mem_map_of_mem Prod.snd h)
    · simp only [hty, ne_eq, not_false_eq_true, if_true]
      exact ih acc hacc hrest

/-- Merging preserves the no-orphan property, at any fuel. -/
theorem merge_ok : ∀ (fuel : Nat) (l : List NavNode),
    listOKb l = true → listOKb (mergeCategoryNodeListsFuel fuel l) = true := by
  intro fuel
  induction fuel with
  | zero => intro l h; exact h
  | succ f ih =>
    intro l h
    rw [mergeFuel_succ]
    exact mergeIntoWith_ok (mergeCategoryNodeListsFuel f) ih (merge_ne_nil f)
      l [] rfl h

/-- Every document node built by `buildDocumentNode` is a markdown leaf, so
it satisfies the no-orphan property. -/
theorem buildDocumentNode_ok (opts : GenOptions)
    (crossMap : List (String × CrossLanguageDocument)) (f : ContentFile) :
    nodeOKb (buildDocumentNode opts crossMap f) = true := by
  unfold buildDocumentNode
  cases crossMapGet crossMap f.metadata.slugEN <;> rfl

/-- The second pass of `buildDocumentNodes` produces only valid nodes. -/
theorem processSlugGroups_ok (opts : GenOptions)
    (crossMap : List (String × CrossLanguageDocument)) :
    ∀ (groups : List (String × List ContentFile)) (st : GenState),
      listOKb (processSlugGroups opts crossMap groups st).1 = true := by
  intro groups
  induction groups with
  | nil => intro st; rfl
  | cons p rest ih =>
    intro st
    obtain ⟨k, group⟩ := p
    rw [processSlugGroups]
    by_cases hk : st.processedSlugs.contains k
    · simp only [hk, if_true]
      exact ih st
    · simp only [hk, Bool.false_eq_true, if_false]
      cases hhead : group.head? with
      | none => exact ih st
      | some firstFile =>
        show listOKb (buildDocumentNode opts crossMap firstFile ::
          (processSlugGroups opts crossMap rest _).1) = true
        rw [listOKb_iff]
        intro n hn
        rcases List.mem_cons.mp hn with hn | hn
        · rw [hn]
          exact buildDocumentNode_ok opts crossMap firstFile
        · exact (listOKb_iff _).mp (ih _) n hn

/-- `nodeOKb` does not depend on the display name. -/
theorem nodeOKb_rename (n : NavNode) (name' : LocalizedString) :
    nodeOKb (.mk name' n.slug n.origin n.nodeType n.children n.order) =
      nodeOKb n := by
  cases n
  rfl

/-- The tracks title-numbering pass does not disturb the property (it only
rewrites display names). -/
theorem addOrderNumbersGo_ok : ∀ (nodes : List NavNode) (idx : Nat),
    listOKb nodes = true → listOKb (addOrderNumbersGo nodes idx) = true := by
  intro nodes
  induction nodes with
  | nil => intro idx h; exact h
  | cons node rest ih =>
    intro idx h
    have hnode : nodeOKb node = true := by
      rw [listOKb_iff] at h
      exact h node (by simp)
    have hrest : listOKb rest = true := by
      rw [listOKb_iff] at h ⊢
      intro n hn
      exact h n (List.mem_cons_of_mem _ hn)
    rw [addOrderNumbersGo]
    by_cases hty : node.nodeType = .markdown
    · simp only [hty, if_true]
      show (nodeOKb _ && listOKb _) = true
      apply (Bool.and_eq_true _ _).mpr
      refine ⟨?_, ih _ hrest⟩
      rw [← hty, nodeOKb_rename]
      exact hnode
    · simp only [hty, Bool.false_eq_true, if_false]
      show (nodeOKb node && listOKb _) = true
      apply (Bool.and_eq_true _ _).mpr
      exact ⟨hnode, ih _ hrest⟩

/-- `buildDocumentNodes` always produces a valid (all-markdown) node list. -/
theorem buildDocumentNodes_ok (opts : GenOptions)
    (crossMap : List (String × CrossLanguageDocument)) (sectionName : String)
    (files : List ContentFile) (st : GenState) :
    listOKb (buildDocumentNodes opts crossMap sectionName files st).1 = true := by
  unfold buildDocumentNodes
  have hsorted := listOKb_of_perm
    (sortDocumentNodes_perm sectionName
      (processSlugGroups opts crossMap (groupByKey docGroupKey files)
        { processedSlugs := st.processedSlugs,
          diags := st.diags ++ (if opts.showWarnings then
            duplicateDiags sectionName files else []) }).1).symm
    (processSlugGroups_ok opts crossMap _ _)
  by_cases hs : sectionName = "tracks"
  · simp only [hs, if_true]
    exact addOrderNumbersGo_ok _ 0 (by simpa [hs] using hsorted)
  · simp only [hs, Bool.false_eq_true, if_false]
    simpa [hs] using hsorted

/-- The entry loop produces only valid nodes whenever the node builder does. -/
theorem buildCategoryNodesRawWith_ok
    (build : CatInfo → GenState → Option NavNode × GenState)
    (hbuild : ∀ ci st n, (build ci st).1 = some n → nodeOKb n = true) :
    ∀ (entries : List (String × CatInfo)) (st : GenState),
      listOKb (buildCategoryNodesRawWith build entries st).1 = true := by
  intro entries
  induction entries with
  | nil => intro st; rfl
  | cons e rest ih =>
    intro st
    obtain ⟨key, ci⟩ := e
    cases hres : (build ci st).1 with
    | none =>
      have hred : (buildCategoryNodesRawWith build ((key, ci) :: rest) st).1 =
          (buildCategoryNodesRawWith build rest (build ci st).2).1 := by
        simp only [buildCategoryNodesRawWith, hres]
      rw [hred]
      exact ih _
    | some n =>
      have hred : (buildCategoryNodesRawWith build ((key, ci) :: rest) st).1 =
          n :: (buildCategoryNodesRawWith build rest (build ci st).2).1 := by
        simp only [buildCategoryNodesRawWith, hres]
      rw [hred, listOKb_iff]
      intro m hm
      rcases List.mem_cons.mp hm with hm | hm
      · rw [hm]
        exact hbuild ci st n hres
      · exact (listOKb_iff _).mp (ih _) m hm

/-- `buildCategoryNodesWith` produces a valid list whenever the node builder
does: filtering, merging and sorting all preserve the property. -/
theorem buildCategoryNodesWith_ok
    (build : CatInfo → GenState → Option NavNode × GenState)
    (hbuild : ∀ ci st n, (build ci st).1 = some n → nodeOKb n = true)
    (sectionName : String) (entries : List (String × CatInfo)) (st : GenState) :
    listOKb (buildCategoryNodesWith build sectionName entries st).1 = true := by
  unfold buildCategoryNodesWith
  have hraw := buildCategoryNodesRawWith_ok build hbuild entries st
  have hfilter : listOKb ((buildCategoryNodesRawWith build entries st).1.filter
      (fun n => !n.children.isEmpty)) = true := by
    rw [listOKb_iff]
    intro n hn
    exact (listOKb_iff _).mp hraw n (List.mem_filter.mp hn).1
  have hmerged : listOKb (mergeCategoryNodeLists
      ((buildCategoryNodesRawWith build entries st).1.filter
        (fun n => !n.children.isEmpty))) = true :=
    merge_ok _ _ hfilter
  exact listOKb_of_perm (sortCategoryNodes_perm sectionName _).symm hmerged

/-- Every node the fuelled builder produces satisfies the no-orphan
property: empty leaf categories and empty nested categories are pruned to
`none` before a node is ever built. -/
theorem buildNavigationNodeFuel_ok (opts : GenOptions)
    (crossMap : List (String × CrossLanguageDocument)) (sectionName : String) :
    ∀ (fuel : Nat) (ci : CatInfo) (st : GenState) (n : NavNode),
      (buildNavigationNodeFuel opts crossMap sectionName fuel ci st).1 = some n →
      nodeOKb n = true := by
  intro fuel
  induction fuel with
  | zero => intro ci st n h; exact absurd h (by simp [buildNavigationNodeFuel])
  | succ f ih =>
    intro ci st n h
    cases ci with
    | docsNode rawName order files =>
      have hdocs := buildDocumentNodes_ok opts crossMap sectionName files st
      by_cases hempty : (buildDocumentNodes opts crossMap sectionName files st).1.isEmpty
      · exact absurd h (by
          show ((if (buildDocumentNodes opts crossMap sectionName files st).1.isEmpty
              then _ else _ : Option NavNode × GenState)).1 = some n → False
          rw [if_pos hempty]
          simp)
      · have hsome : (buildNavigationNodeFuel opts crossMap sectionName (f + 1)
            (.docsNode rawName order files) st).1 =
            some (.mk (restrictName opts.languages rawName)
              (generateLocalizedCategorySlugs
                (restrictName opts.languages rawName) (some files)) "" .category
              (buildDocumentNodes opts crossMap sectionName files st).1 order) := by
          show ((if (buildDocumentNodes opts crossMap sectionName files st).1.isEmpty
              then _ else _ : Option NavNode × GenState)).1 = _
          rw [if_neg hempty]
        rw [hsome] at h
        injection h with h
        rw [← h, nodeOKb_mk]
        apply (Bool.and_eq_true _ _).mpr
        refine ⟨?_, hdocs⟩
        apply Bool.or_eq_true_iff.mpr
        right
        simpa using hempty
    | subsNode rawName order entries =>
      have hsubs := buildCategoryNodesWith_ok
        (buildNavigationNodeFuel opts crossMap sectionName f)
        (fun ci st n h => ih ci st n h) sectionName entries st
      by_cases hempty : (buildCategoryNodesWith
          (buildNavigationNodeFuel opts crossMap sectionName f) sectionName
          entries st).1.isEmpty
      · exact absurd h (by
          show ((if (buildCategoryNodesWith
              (buildNavigationNodeFuel opts crossMap sectionName f) sectionName
              entries st).1.isEmpty then _ else _ : Option NavNode × GenState)).1 =
              some n → False
          rw [if_pos hempty]
          simp)
      · have hsome : (buildNavigationNodeFuel opts crossMap sectionName (f + 1)
            (.subsNode rawName order entries) st).1 =
            some (.mk (restrictName opts.languages rawName)
              (generateLocalizedCategorySlugs
                (restrictName opts.languages rawName) none) "" .category
              (buildCategoryNodesWith
                (buildNavigationNodeFuel opts crossMap sectionName f)
                sectionName entries st).1 none) := by
          show ((if (buildCategoryNodesWith
              (buildNavigationNodeFuel opts crossMap sectionName f) sectionName
              entries st).1.isEmpty then _ else _ : Option NavNode × GenState)).1 = _
          rw [if_neg hempty]
          rfl
        rw [hsome] at h
        injection h with h
        rw [← h, nodeOKb_mk]
        apply (Bool.and_eq_true _ _).mpr
        refine ⟨?_, hsubs⟩
        apply Bool.or_eq_true_iff.mpr
        right
        simpa using hempty

/-- C4 **No orphan categories**: in the final navigation tree, every
CategoryNode produced by `buildCategoryNodes` — at every nesting level — has
a non-empty children list (`nodeOKb`): a category whose documents were all
removed never appears as an empty shell in the output. -/
theorem c4_no_orphan_categories (opts : GenOptions)
    (crossMap : List (String × CrossLanguageDocument)) (sectionName : String)
    (entries : List (String × CatInfo)) (st : GenState) :
    listOKb (buildCategoryNodes opts crossMap sectionName entries st).1 = true := by
  unfold buildCategoryNodes
  exact buildCategoryNodesWith_ok _
    (fun ci st n h => buildNavigationNodeFuel_ok opts crossMap sectionName _ ci st n h)
    sectionName entries st
